import Mathlib

/-!
Verification of the frame-level decoder orchestrator of `lib/jxl/dec_frame.cc`
(`FrameDecoder`): a shallow embedding of its per-frame mutable state, of the
section scheduler `ProcessSections`, of `Flush` / `FinalizeFrame`, of the
reference mask `References`, and of the header/TOC phase of `InitFrame`, with
theorems about the scheduler invariants, the duplicate-batch law, the
progressive-policy clipping of `max_passes`, and the error paths.

External collaborators (entropy coder, modular sub-decoder, render pipeline,
thread pool) are abstracted: every call into them is represented by an
abstract success/partial/fatal outcome, and the theorems quantify over all
such outcomes.  Parallel pool regions are modelled by their sequential
semantics (disjoint slots, join barrier before the next stage), which is the
ordering guarantee the source documents.  `JXL_ASSERT` is modelled as a hard
failure, matching the default build in which it aborts.
-/

namespace JxlDecFrame

/-- Per-section status reported by the scheduler: Done, Partial, Skipped or
Duplicate (`FrameDecoder::SectionStatus`). -/
inductive SectionStatus where
  | kDone
  | kPartial
  | kSkipped
  | kDuplicate
deriving DecidableEq, Repr

/-- Abstract outcome of running the external sub-decoders (entropy, modular,
splines, ...) on the bytes of one section: full success, a non-fatal partial
result, or a fatal parse error.  Claims quantify over all bitstreams, which
this field models. -/
inductive SecOutcome where
  | ok
  | nonFatal
  | fatal
deriving DecidableEq, Repr

/-- `FrameDecoder::SectionInfo`: a section id plus, in place of the bit
reader, the abstract outcome its bytes produce in the stage executors. -/
structure SectionInfo where
  id : Nat
  outcome : SecOutcome
deriving DecidableEq, Repr

instance : Inhabited SectionInfo := ⟨⟨0, SecOutcome.ok⟩⟩

inductive FrameEncoding where
  | kVarDCT
  | kModular
deriving DecidableEq, Repr

inductive FrameType where
  | kRegularFrame
  | kDCFrame
  | kReferenceOnly
  | kSkipProgressive
deriving DecidableEq, Repr

inductive BlendMode where
  | kReplace
  | kNonReplace
deriving DecidableEq, Repr

/-- Blending descriptor for one channel: mode and source reference slot. -/
structure BlendingInfo where
  mode : BlendMode
  source : Nat
deriving DecidableEq, Repr

/-- Modelled from the spec: the frame header (`frame_header.h` is outside the
provided sources).  It carries exactly the fields `dec_frame.cc` reads:
encoding, frame type, the flags bitset (as booleans), the DC level, the
blending descriptors, the custom-size-or-origin flag, the passes descriptor
with its per-downsample-step `(downsample, last_pass)` pairs, and whether the
chroma subsampling is 444. -/
structure FrameHeader where
  encoding : FrameEncoding
  frameType : FrameType
  flagPatches : Bool
  flagSplines : Bool
  flagNoise : Bool
  flagUseDcFrame : Bool
  flagSkipAdaptiveDCSmoothing : Bool
  dcLevel : Nat
  blendingInfo : BlendingInfo
  extraChannelBlendingInfo : List BlendingInfo
  customSizeOrOrigin : Bool
  numPasses : Nat
  downsample : List Nat
  lastPass : List Nat
  is444 : Bool
deriving DecidableEq, Repr

/-- The per-frame constants that `ProcessSections`, `Flush`, `FinalizeFrame`
and `References` read: the parsed header, the derived dimensions
`num_dc_groups` and `num_groups`, whether the output target is a JPEG
reconstruction, the partial-input flags fixed at `InitFrame`, the
progressive-pause flag, whether the image metadata has extra channels, and
the reference mask reported by the patch dictionary
(`PatchDictionary::GetReferences`, an external collaborator). -/
structure FrameConfig where
  header : FrameHeader
  numDcGroups : Nat
  numGroups : Nat
  isJPEG : Bool
  allowPartialFrames : Bool
  allowPartialDcGlobal : Bool
  pauseAtProgressive : Bool
  hasExtraChannels : Bool
  patchesReferences : Nat
deriving DecidableEq, Repr

/-- Abstract success/failure of the external operations a batch may invoke:
`PassesDecoderState::PreparePipeline`, the allocation inside
`AllocateOutput` (`InitForAC`), the force-draw of missing groups in `Flush`,
and the modular `FinalizeDecoding`. -/
structure ExecEnv where
  preparePipelineOk : Bool
  allocateOk : Bool
  forceDrawOk : Bool
  modularFinalizeOk : Bool
deriving DecidableEq, Repr

/-- The per-frame mutable state of `FrameDecoder` (§3 of the spec, C3). -/
structure FrameState where
  decodedDcGlobal : Bool
  decodedAcGlobal : Bool
  finalizedDc : Bool
  isFinalized : Bool
  allocated : Bool
  decodedDcGroups : List Bool
  decodedPassesPerAcGroup : List Nat
  processedSection : List Bool
  maxPasses : Nat
  numRenders : Nat
  numSectionsDone : Nat
deriving DecidableEq, Repr

/-- Modelled from the spec: `NumTocEntries` (`toc.h` is outside the provided
sources).  A single combined section when `num_groups == 1 && num_passes ==
1`; otherwise DC global, one section per DC group, AC global, and one section
per (pass, AC group). -/
def tocEntries (cfg : FrameConfig) : Nat :=
  if cfg.numGroups = 1 ∧ cfg.header.numPasses = 1 then 1
  else cfg.numDcGroups + 2 + cfg.numGroups * cfg.header.numPasses

/-- The frame state exactly as `InitFrame` leaves it ("Clear the state" in
dec_frame.cc): all stage flags false, all DC groups undecoded, zero decoded
passes per AC group, no section processed, `max_passes` at the header value,
no renders. -/
def initialState (cfg : FrameConfig) : FrameState where
  decodedDcGlobal := false
  decodedAcGlobal := false
  finalizedDc := false
  isFinalized := false
  allocated := false
  decodedDcGroups := List.replicate cfg.numDcGroups false
  decodedPassesPerAcGroup := List.replicate cfg.numGroups 0
  processedSection := List.replicate (tocEntries cfg) false
  maxPasses := cfg.header.numPasses
  numRenders := 0
  numSectionsDone := 0

/-- `FrameDecoder::HasEverything`: DC global and AC global decoded, every DC
group decoded, and no AC group with fewer decoded passes than `max_passes_`. -/
def hasEverything (s : FrameState) : Bool :=
  s.decodedDcGlobal && s.decodedAcGlobal &&
    s.decodedDcGroups.all (fun b => b) &&
    s.decodedPassesPerAcGroup.all (fun nb => decide (s.maxPasses ≤ nb))

/-- `FrameDecoder::References`: 0 if the frame is finalised, 0 if it does not
have everything; otherwise the OR of the blending source bits (for
regular/skip-progressive frames that are cropped or blend with a mode other
than Replace), the patch dictionary reference bits, and the DC-frame bit
`16 << ((dc_level + 1) - 1)`. -/
def references (cfg : FrameConfig) (s : FrameState) : Nat :=
  if s.isFinalized then 0
  else if ¬ hasEverything s then 0
  else
    let r0 : Nat :=
      if cfg.header.frameType = FrameType.kRegularFrame ∨
          cfg.header.frameType = FrameType.kSkipProgressive then
        let cropped := cfg.header.customSizeOrOrigin
        let r1 : Nat :=
          if cropped ∨ cfg.header.blendingInfo.mode ≠ BlendMode.kReplace then
            1 <<< cfg.header.blendingInfo.source
          else 0
        cfg.header.extraChannelBlendingInfo.foldl
          (fun acc bi =>
            if cropped ∨ bi.mode ≠ BlendMode.kReplace then
              acc ||| (1 <<< bi.source)
            else acc)
          r1
      else 0
    let r2 : Nat := if cfg.header.flagPatches then r0 ||| cfg.patchesReferences else r0
    if cfg.header.flagUseDcFrame then r2 ||| (16 <<< ((cfg.header.dcLevel + 1) - 1))
    else r2

/-- The OR of the per-channel blending source bits, following §4.6 of the
spec: one bit `1 << source` per channel whose frame is cropped or whose blend
mode is not Replace. -/
def blendSourceBits (cropped : Bool) (l : List BlendingInfo) : Nat :=
  l.foldr
    (fun bi acc =>
      (if cropped ∨ bi.mode ≠ BlendMode.kReplace then 1 <<< bi.source else 0) ||| acc)
    0

/-- The reference mask as §4.6 of the spec words it, with the finalisation
condition corrected: 0 when the frame is finalised or not fully decoded,
otherwise the OR of the colour and extra-channel blending source bits, the
patch dictionary bits, and the DC-frame bit `16 << ((dc_level + 1) - 1)`. -/
def referencesSpec (cfg : FrameConfig) (s : FrameState) : Nat :=
  if s.isFinalized = true ∨ hasEverything s = false then 0
  else
    (if cfg.header.frameType = FrameType.kRegularFrame ∨
        cfg.header.frameType = FrameType.kSkipProgressive then
      blendSourceBits cfg.header.customSizeOrOrigin
        (cfg.header.blendingInfo :: cfg.header.extraChannelBlendingInfo)
    else 0)
    ||| (if cfg.header.flagPatches then cfg.patchesReferences else 0)
    ||| (if cfg.header.flagUseDcFrame then 16 <<< ((cfg.header.dcLevel + 1) - 1) else 0)

/-- The classification `ProcessSections` computes over a batch (dec_frame.cc
lines 648-710): for each role the index inside the batch of the section
serving it (the sentinel `num` when absent), the per-group new-pass counts,
the updated `processed_section_` bitset, the statuses so far, and the error
raised by a violated assertion or an invalid id. -/
structure ClassifyOut where
  dcGlobalSec : Nat
  acGlobalSec : Nat
  dcGroupSec : List Nat
  acGroupSec : List (List Nat)
  numAcPasses : List Nat
  processed : List Bool
  status : List SectionStatus
  err : Option String
deriving DecidableEq, Repr

/-- The per-entry classification loop (lines 674-699): duplicates, DC global,
DC groups, AC global, AC groups; ids at or beyond `num_passes` raise "Invalid
section ID", ids at or beyond `max_passes_` are skipped silently, and the
entry assertion `sections[i].id < processed_section_.size()` aborts. -/
def classifyGo (numGroups acGlobalIndex maxPasses numPassesHdr : Nat)
    (i : Nat) (secs : List SectionInfo) (co : ClassifyOut) : ClassifyOut :=
  match secs with
  | [] => co
  | sec :: rest =>
    if sec.id < co.processed.length then
      if co.processed.getD sec.id false then
        classifyGo numGroups acGlobalIndex maxPasses numPassesHdr (i + 1) rest
          {co with status := co.status.set i SectionStatus.kDuplicate}
      else if sec.id = 0 then
        classifyGo numGroups acGlobalIndex maxPasses numPassesHdr (i + 1) rest
          {co with dcGlobalSec := i, processed := co.processed.set sec.id true}
      else if sec.id < acGlobalIndex then
        classifyGo numGroups acGlobalIndex maxPasses numPassesHdr (i + 1) rest
          {co with dcGroupSec := co.dcGroupSec.set (sec.id - 1) i,
                   processed := co.processed.set sec.id true}
      else if sec.id = acGlobalIndex then
        classifyGo numGroups acGlobalIndex maxPasses numPassesHdr (i + 1) rest
          {co with acGlobalSec := i, processed := co.processed.set sec.id true}
      else
        let acIdx := sec.id - acGlobalIndex - 1
        let acg := acIdx % numGroups
        let acp := acIdx / numGroups
        if numPassesHdr ≤ acp then {co with err := some "Invalid section ID"}
        else if maxPasses ≤ acp then
          classifyGo numGroups acGlobalIndex maxPasses numPassesHdr (i + 1) rest co
        else
          classifyGo numGroups acGlobalIndex maxPasses numPassesHdr (i + 1) rest
            {co with
              acGroupSec :=
                co.acGroupSec.set acg ((co.acGroupSec.getD acg []).set acp i),
              processed := co.processed.set sec.id true}
    else {co with err := some "JXL_ASSERT: section id out of bounds"}

/-- The per-group count of new contiguous passes (lines 700-709): how many
consecutive slots of `row`, starting at `start`, hold a batch index rather
than the sentinel `num`; the fuel is `max_passes_ - decoded`. -/
def countFrom (row : List Nat) (num start : Nat) : Nat → Nat
  | 0 => 0
  | fuel + 1 =>
    if row.getD start num = num then 0
    else 1 + countFrom row num (start + 1) fuel

/-- The empty classification: no role served, fresh statuses. -/
def emptyClassify (cfg : FrameConfig) (s : FrameState) (num : Nat) : ClassifyOut where
  dcGlobalSec := num
  acGlobalSec := num
  dcGroupSec := List.replicate cfg.numDcGroups num
  acGroupSec := List.replicate cfg.numGroups (List.replicate cfg.header.numPasses num)
  numAcPasses := List.replicate cfg.numGroups 0
  processed := s.processedSection
  status := List.replicate num SectionStatus.kSkipped
  err := none

/-- Classification of a multi-section batch (lines 672-710): the entry loop
followed by the counting of new contiguous passes per AC group. -/
def classifyMulti (cfg : FrameConfig) (s : FrameState) (secs : List SectionInfo) :
    ClassifyOut :=
  let num := secs.length
  let co := classifyGo cfg.numGroups (cfg.numDcGroups + 1) s.maxPasses
    cfg.header.numPasses 0 secs (emptyClassify cfg s num)
  match co.err with
  | some _ => co
  | none =>
    {co with numAcPasses :=
      (List.range cfg.numGroups).map (fun g =>
        countFrom (co.acGroupSec.getD g []) num (s.decodedPassesPerAcGroup.getD g 0)
          (s.maxPasses - s.decodedPassesPerAcGroup.getD g 0))}

/-- The single-combined-section fast path (lines 661-671): the batch must be
exactly one section with id 0; if unseen it serves every role at once, else
it is a duplicate. -/
def classifySingle (cfg : FrameConfig) (s : FrameState) (secs : List SectionInfo) :
    ClassifyOut :=
  let num := secs.length
  let co0 := emptyClassify cfg s num
  if num = 1 then
    if (secs.getD 0 default).id = 0 then
      if s.processedSection.getD 0 false then
        {co0 with status := co0.status.set 0 SectionStatus.kDuplicate}
      else
        {co0 with
          dcGlobalSec := 0
          acGlobalSec := 0
          dcGroupSec := co0.dcGroupSec.set 0 0
          acGroupSec := co0.acGroupSec.set 0 [0]
          numAcPasses := co0.numAcPasses.set 0 1
          processed := s.processedSection.set 0 true}
    else {co0 with err := some "JXL_ASSERT: sections[0].id == 0"}
  else {co0 with err := some "JXL_ASSERT: num == 1"}

/-- `FrameDecoder::MarkSections` (lines 636-646): clear `processed_section_`
for every entry left Skipped or Partial so a later retry can reprocess it,
and count the sections done. -/
def markSectionsGo (status : List SectionStatus) :
    List SectionInfo → Nat → List Bool → Nat → List Bool × Nat
  | [], _, processed, done => (processed, done)
  | sec :: rest, i, processed, done =>
    let st := status.getD i SectionStatus.kSkipped
    if st = SectionStatus.kSkipped ∨ st = SectionStatus.kPartial then
      markSectionsGo status rest (i + 1) (processed.set sec.id false) (done - 1)
    else markSectionsGo status rest (i + 1) processed done

/-- The DC-group parallel region (lines 722-736) in its sequential join
semantics: every scheduled group either decodes (slot set, its entry Done) or
raises the shared error flag. -/
def dcPool (secs : List SectionInfo) (num : Nat) :
    List Nat → Nat → List Bool → List SectionStatus → Bool →
      List Bool × List SectionStatus × Bool
  | [], _, groups, st, he => (groups, st, he)
  | secIdx :: rest, g, groups, st, he =>
    if secIdx = num then dcPool secs num rest (g + 1) groups st he
    else
      match (secs.getD secIdx default).outcome with
      | SecOutcome.ok =>
        dcPool secs num rest (g + 1) (groups.set g true)
          (st.set secIdx SectionStatus.kDone) he
      | _ => dcPool secs num rest (g + 1) groups st true

/-- The AC-group parallel region (lines 793-823) in its sequential join
semantics: every group with new passes consumes its readers in pass order;
on success its entries go Done and its pass counter advances, on failure the
shared error flag is raised. -/
def acPool (secs : List SectionInfo) (num : Nat) :
    List (List Nat) → List Nat → Nat → List Nat → List SectionStatus → Bool →
      List Nat × List SectionStatus × Bool
  | [], _, _, passes, st, he => (passes, st, he)
  | _ :: _, [], _, passes, st, he => (passes, st, he)
  | row :: rows, n :: ns, g, passes, st, he =>
    if n = 0 then acPool secs num rows ns (g + 1) passes st he
    else
      let firstPass := passes.getD g 0
      let idxs := (List.range n).map (fun j => row.getD (firstPass + j) num)
      if idxs.all (fun j => (secs.getD j default).outcome == SecOutcome.ok) then
        acPool secs num rows ns (g + 1) (passes.set g (firstPass + n))
          (idxs.foldl (fun acc j => acc.set j SectionStatus.kDone) st) he
      else acPool secs num rows ns (g + 1) passes st true

/-- `FrameDecoder::AllocateOutput` (lines 447-454): idempotent; the
underlying allocation may fail. -/
def allocateOutput (env : ExecEnv) (s : FrameState) : FrameState × Option String :=
  if s.allocated then (s, none)
  else if env.allocateOk then ({s with allocated := true}, none)
  else (s, some "AllocateOutput failed")

/-- Result of one `ProcessSections` call: the frame state as left behind
(also by a failing call), the per-entry statuses, and the failure if any. -/
structure PSRes where
  state : FrameState
  status : List SectionStatus
  err : Option String
deriving DecidableEq, Repr

/-- The closing `MarkSections` pass of `ProcessSections` (line 826). -/
def psMark (secs : List SectionInfo) (s : FrameState) (st : List SectionStatus) : PSRes :=
  let pr := markSectionsGo st secs 0 s.processedSection secs.length
  ⟨{s with processedSection := pr.1, numSectionsDone := pr.2}, st, none⟩

/-- AC-group stage of `ProcessSections` (lines 784-824). -/
def psAcPool (secs : List SectionInfo) (co : ClassifyOut)
    (s : FrameState) (st : List SectionStatus) : PSRes :=
  if s.decodedAcGlobal then
    let r := acPool secs secs.length co.acGroupSec co.numAcPasses 0
      s.decodedPassesPerAcGroup st false
    let s1 := {s with decodedPassesPerAcGroup := r.1}
    if r.2.2 then ⟨s1, r.2.1, some "Error in AC group"⟩
    else psMark secs s1 r.2.1
  else psMark secs s st

/-- AC-global stage of `ProcessSections` (lines 779-782). -/
def psAcGlobal (secs : List SectionInfo) (co : ClassifyOut)
    (s : FrameState) (st : List SectionStatus) : PSRes :=
  if s.finalizedDc ∧ co.acGlobalSec ≠ secs.length ∧ ¬ s.decodedAcGlobal then
    match (secs.getD co.acGlobalSec default).outcome with
    | SecOutcome.ok =>
      psAcPool secs co {s with decodedAcGlobal := true}
        (st.set co.acGlobalSec SectionStatus.kDone)
    | _ => ⟨s, st, some "Error in AC global section"⟩
  else psAcPool secs co s st

/-- DC-finalisation stage of `ProcessSections` (lines 739-777): when every DC
group is decoded and DC is not yet finalised, prepare the render pipeline,
run `FinalizeDC`, allocate the output, and possibly pause to emit a DC
progressive preview. -/
def psFinalize (cfg : FrameConfig) (env : ExecEnv) (secs : List SectionInfo)
    (co : ClassifyOut) (singleSection : Bool) (s : FrameState)
    (st : List SectionStatus) : PSRes :=
  if s.decodedDcGroups.all (fun b => b) ∧ ¬ s.finalizedDc then
    if env.preparePipelineOk then
      let s1 := {s with finalizedDc := true}
      match allocateOutput env s1 with
      | (s2, some e) => ⟨s2, st, some e⟩
      | (s2, none) =>
        if cfg.pauseAtProgressive ∧ ¬ singleSection then
          if ¬ cfg.hasExtraChannels ∧ cfg.header.encoding = FrameEncoding.kVarDCT then
            psMark secs s2 st
          else psAcGlobal secs co s2 st
        else psAcGlobal secs co s2 st
    else ⟨s, st, some "PreparePipeline failed"⟩
  else psAcGlobal secs co s st

/-- DC-group stage of `ProcessSections` (lines 721-737). -/
def psDcPool (cfg : FrameConfig) (env : ExecEnv) (secs : List SectionInfo)
    (co : ClassifyOut) (singleSection : Bool) (s : FrameState)
    (st : List SectionStatus) : PSRes :=
  let r :=
    if s.decodedDcGlobal then dcPool secs secs.length co.dcGroupSec 0 s.decodedDcGroups st false
    else (s.decodedDcGroups, st, false)
  let s1 := {s with decodedDcGroups := r.1}
  if r.2.2 then ⟨s1, r.2.1, some "Error in DC group"⟩
  else psFinalize cfg env secs co singleSection s1 r.2.1

/-- DC-global stage of `ProcessSections` (lines 711-719): a fatal error
aborts the batch, a non-fatal partial result reports Partial, success sets
`decoded_dc_global_`. -/
def psDcGlobal (cfg : FrameConfig) (env : ExecEnv) (secs : List SectionInfo)
    (co : ClassifyOut) (singleSection : Bool) (s : FrameState)
    (st : List SectionStatus) : PSRes :=
  if co.dcGlobalSec ≠ secs.length then
    match (secs.getD co.dcGlobalSec default).outcome with
    | SecOutcome.fatal => ⟨s, st, some "Error in DC global section"⟩
    | SecOutcome.ok =>
      psDcPool cfg env secs co singleSection {s with decodedDcGlobal := true}
        (st.set co.dcGlobalSec SectionStatus.kDone)
    | SecOutcome.nonFatal =>
      psDcPool cfg env secs co singleSection s
        (st.set co.dcGlobalSec SectionStatus.kPartial)
  else psDcPool cfg env secs co singleSection s st

/-- `FrameDecoder::ProcessSections` (lines 648-828): classify the batch
(single-section fast path or the general loop), then run the DC-global,
DC-group, finalize-DC, AC-global and AC-group stages in order, and close
with `MarkSections`. -/
def processSections (cfg : FrameConfig) (env : ExecEnv) (s : FrameState)
    (secs : List SectionInfo) : PSRes :=
  if secs.length = 0 then ⟨s, [], none⟩
  else
    let singleSection := cfg.numGroups = 1 ∧ cfg.header.numPasses = 1
    let co := if singleSection then classifySingle cfg s secs else classifyMulti cfg s secs
    let s1 := {s with processedSection := co.processed}
    match co.err with
    | some e => ⟨s1, co.status, some e⟩
    | none => psDcGlobal cfg env secs co (decide singleSection) s1 co.status

/-- Minimum of a list of pass counters, as `*std::min_element` over a
nonempty vector; the default is returned for the (unreachable) empty list. -/
def listMinD (l : List Nat) (d : Nat) : Nat :=
  match l with
  | [] => d
  | x :: xs => xs.foldl Nat.min x

/-- `FrameDecoder::Flush` (lines 830-894): early-outs for blending, for a
not-yet-final skip-progressive frame and for JPEG output; `AllocateOutput`;
force-draw of under-decoded groups; modular finalisation; and the render
counter. -/
def flush (cfg : FrameConfig) (env : ExecEnv) (s : FrameState) :
    FrameState × Option String :=
  let hasBlending :=
    cfg.header.blendingInfo.mode ≠ BlendMode.kReplace ∨
      cfg.header.customSizeOrOrigin = true ∨
      cfg.header.extraChannelBlendingInfo.any (fun bi => bi.mode ≠ BlendMode.kReplace)
  if hasBlending ∧ s.isFinalized = false then
    (s, some "Flush: blending enabled and frame not finalized")
  else if cfg.header.frameType = FrameType.kSkipProgressive ∧ s.isFinalized = false then
    (s, none)
  else if cfg.isJPEG then (s, none)
  else
    match allocateOutput env s with
    | (s1, some e) => (s1, some e)
    | (s1, none) =>
      let completelyDecoded := listMinD s1.decodedPassesPerAcGroup cfg.header.numPasses
      if completelyDecoded < cfg.header.numPasses ∧ ¬ env.forceDrawOk then
        (s1, some "Drawing groups failed")
      else if env.modularFinalizeOk then
        ({s1 with numRenders := s1.numRenders + 1}, none)
      else (s1, some "modular FinalizeDecoding failed")

/-- `FrameDecoder::FinalizeFrame` (lines 959-993): fail on a second call,
mark finalised, JPEG early-out, require `HasEverything() ∨
allow_partial_frames`, allocate when DC was never finalised, then `Flush`
(the reference-frame publication mutates no modelled state). -/
def finalizeFrame (cfg : FrameConfig) (env : ExecEnv) (s : FrameState) :
    FrameState × Option String :=
  if s.isFinalized then (s, some "FinalizeFrame called multiple times")
  else
    let s1 := {s with isFinalized := true}
    if cfg.isJPEG then (s1, none)
    else if ¬ hasEverything s1 ∧ ¬ cfg.allowPartialFrames then
      (s1, some "FinalizeFrame called before the frame was fully decoded")
    else if ¬ s1.finalizedDc ∧ ¬ cfg.allowPartialFrames then
      (s1, some "JXL_ASSERT: allow_partial_frames_")
    else if ¬ s1.finalizedDc then
      match allocateOutput env s1 with
      | (s2, some e) => (s2, some e)
      | (s2, none) => flush cfg env s2
    else flush cfg env s1

/-- The progressive-policy pass clipping in `DecodeFrame` (lines 126-149):
the effective `max_downsampling` is the requested one shifted down by 3 bits
per DC level, at least 1; a value of 8 or more degenerates to 0 passes,
otherwise the per-downsample-step `(downsample, last_pass)` pairs clip the
requested `max_passes`; reference-only frames bypass downsampling; the
result is clamped to the header pass count. -/
def computeMaxPasses (dpMaxPasses dpMaxDownsampling : Nat) (hdr : FrameHeader) : Nat :=
  let maxDownsampling := Nat.max (dpMaxDownsampling >>> (hdr.dcLevel * 3)) 1
  let mp :=
    if 8 ≤ maxDownsampling then 0
    else
      (List.zip hdr.downsample hdr.lastPass).foldl
        (fun mp dl => if dl.1 ≤ maxDownsampling ∧ dl.2 < mp then dl.2 + 1 else mp)
        dpMaxPasses
  let mp2 := if hdr.frameType = FrameType.kReferenceOnly then hdr.numPasses else mp
  Nat.min mp2 hdr.numPasses

/-- The abstract parse environment of one `InitFrame` call: the previous
`is_finalized_` flag (asserted at entry), the frame-header parse result
(`none` when the reader is exhausted or the header malformed), the
`frame_header_` member contents after a failed parse, whether DC-frame slot
0 is non-empty, the results of `VerifyDimensions` and `ReadGroupOffsets`,
the parsed TOC section count, `groups_total_size`, the byte position
`group_codes_begin`, the shared-state initialisation result, the JPEG output
data, and the derived group counts. -/
structure InitEnv where
  prevFinalized : Bool
  parsedHeader : Option FrameHeader
  baseHeader : FrameHeader
  dcFrame0NonEmpty : Bool
  dimsOk : Bool
  tocOk : Bool
  numTocSections : Nat
  groupsTotalSize : Nat
  groupCodesBegin : Nat
  sharedInitOk : Bool
  isJPEG : Bool
  numComponents : Nat
  xybEncoded : Bool
  numDcGroups : Nat
  numGroups : Nat
deriving DecidableEq, Repr

/-- Result of a successful `InitFrame`: the frame header in force and, when
`output_needed`, the cleared per-frame state. -/
structure InitResult where
  header : FrameHeader
  state : Option FrameState
deriving DecidableEq, Repr

/-- "Clear the state" in `InitFrame` (lines 339-353), with the lengths the
frame dimensions and the TOC produced. -/
def clearedState (env : InitEnv) (h : FrameHeader) : FrameState where
  decodedDcGlobal := false
  decodedAcGlobal := false
  finalizedDc := false
  isFinalized := false
  allocated := false
  decodedDcGroups := List.replicate env.numDcGroups false
  decodedPassesPerAcGroup := List.replicate env.numGroups 0
  processedSection := List.replicate env.numTocSections false
  maxPasses := h.numPasses
  numRenders := 0
  numSectionsDone := 0

/-- Continuation of `InitFrame` once a frame header is in hand (lines
250-354): dimension check, TOC read, the group-codes overflow check, the
chroma/DC-smoothing check, the `output_needed` early-out, shared-state
initialisation, the JPEG guards, and the state clearing. -/
def initFrameCont (env : InitEnv) (h : FrameHeader)
    (allowPartialFrames outputNeeded : Bool) : Except String InitResult :=
  if ¬ env.dimsOk then Except.error "VerifyDimensions failed"
  else if ¬ env.tocOk ∧ ¬ allowPartialFrames then Except.error "ReadGroupOffsets failed"
  else if (env.groupCodesBegin + env.groupsTotalSize) % 2 ^ 64 < env.groupCodesBegin then
    Except.error "Invalid group codes"
  else if ¬ h.is444 ∧ ¬ h.flagSkipAdaptiveDCSmoothing ∧
      h.encoding = FrameEncoding.kVarDCT then
    Except.error
      "Non-444 chroma subsampling is not allowed when adaptive DC smoothing is enabled"
  else if ¬ outputNeeded then Except.ok ⟨h, none⟩
  else if ¬ env.sharedInitOk then Except.error "shared state initialisation failed"
  else if env.isJPEG ∧ h.encoding = FrameEncoding.kModular then
    Except.error "Cannot output JPEG from Modular"
  else if env.isJPEG ∧ ¬ (env.numComponents = 1 ∨ env.numComponents = 3) then
    Except.error "Invalid number of components"
  else if env.isJPEG ∧ env.xybEncoded then
    Except.error "Cannot decode to JPEG an XYB image"
  else Except.ok ⟨h, some (clearedState env h)⟩

/-- `FrameDecoder::InitFrame` (lines 218-355), header phase: assert the
previous frame was finalised; parse the header; on a failed parse require
`allow_partial_frames`, then either synthesise a UseDcFrame / VarDCT /
dc-level-0 header from DC-frame slot 0 or fail with "Couldn't read frame
header". -/
def initFrame (env : InitEnv) (allowPartialFrames outputNeeded : Bool) :
    Except String InitResult :=
  if ¬ env.prevFinalized then Except.error "JXL_ASSERT: is_finalized_"
  else
    match env.parsedHeader with
    | some h => initFrameCont env h allowPartialFrames outputNeeded
    | none =>
      if ¬ allowPartialFrames then Except.error "frame header decoding failed"
      else if env.dcFrame0NonEmpty then
        initFrameCont env
          {env.baseHeader with
            flagUseDcFrame := true
            encoding := FrameEncoding.kVarDCT
            dcLevel := 0}
          allowPartialFrames outputNeeded
      else Except.error "Couldn't read frame header"

/-- States reachable from a fresh `InitFrame` through `ProcessSections`
calls (successful or failing) and through host `SetMaxPasses` updates. -/
inductive Reachable (cfg : FrameConfig) : FrameState → Prop where
  | init : Reachable cfg (initialState cfg)
  | step (env : ExecEnv) (secs : List SectionInfo) {s : FrameState} :
      Reachable cfg s → Reachable cfg (processSections cfg env s secs).state
  | setMaxPasses (m : Nat) {s : FrameState} :
      Reachable cfg s → Reachable cfg {s with maxPasses := m}

/-- The stage-ordering invariant of the scheduler: a finalised DC implies DC
global and all DC groups decoded, a decoded AC global implies a finalised DC,
and (auxiliary, needed for induction) all DC groups decoded implies DC global
decoded. -/
def StageOrderInv (s : FrameState) : Prop :=
  (s.decodedDcGroups.all (fun b => b) = true → s.decodedDcGlobal = true) ∧
  (s.finalizedDc = true →
    s.decodedDcGlobal = true ∧ s.decodedDcGroups.all (fun b => b) = true) ∧
  (s.decodedAcGlobal = true → s.finalizedDc = true)

/-- Position `j` of a batch may be stored as serving a scheduler role: it is
either the sentinel `num` or an in-range position whose section id is marked
processed. -/
def regOK (secs : List SectionInfo) (processed : List Bool) (j : Nat) : Prop :=
  j = secs.length ∨
    (j < secs.length ∧ processed.getD (secs.getD j default).id false = true)

/-- All role stores of a classification point at processed positions. -/
def rolesOK (secs : List SectionInfo) (co : ClassifyOut) : Prop :=
  regOK secs co.processed co.dcGlobalSec ∧
  regOK secs co.processed co.acGlobalSec ∧
  (∀ j ∈ co.dcGroupSec, regOK secs co.processed j) ∧
  (∀ row ∈ co.acGroupSec, ∀ j ∈ row, regOK secs co.processed j)

/-- Every position whose status is Done or Duplicate has its section id
marked in `processed`. -/
def statOK (secs : List SectionInfo) (processed : List Bool)
    (st : List SectionStatus) : Prop :=
  ∀ j, (st.getD j SectionStatus.kSkipped = SectionStatus.kDone ∨
        st.getD j SectionStatus.kSkipped = SectionStatus.kDuplicate) →
    processed.getD (secs.getD j default).id false = true

/-- A minimal single-pass regular VarDCT header with Replace blending. -/
def hdrBase : FrameHeader where
  encoding := FrameEncoding.kVarDCT
  frameType := FrameType.kRegularFrame
  flagPatches := false
  flagSplines := false
  flagNoise := false
  flagUseDcFrame := false
  flagSkipAdaptiveDCSmoothing := false
  dcLevel := 0
  blendingInfo := ⟨BlendMode.kReplace, 0⟩
  extraChannelBlendingInfo := []
  customSizeOrOrigin := false
  numPasses := 1
  downsample := []
  lastPass := []
  is444 := true

/-- A two-pass variant of `hdrBase`. -/
def hdrTwoPass : FrameHeader := {hdrBase with numPasses := 2}

/-- A reference-only two-pass header. -/
def hdrRefOnly : FrameHeader := {hdrTwoPass with frameType := FrameType.kReferenceOnly}

/-- A single-combined-section frame: one group, one pass, one DC group. -/
def cfgSingle : FrameConfig := ⟨hdrBase, 1, 1, false, false, false, false, false, 0⟩

/-- A multi-section frame: one DC group, two AC groups, two passes
(7 TOC sections). -/
def cfgMulti : FrameConfig := ⟨hdrTwoPass, 1, 2, false, false, false, false, false, 0⟩

/-- A frame whose header carries the UseDcFrame flag. -/
def cfgUseDc : FrameConfig :=
  {cfgSingle with header := {hdrBase with flagUseDcFrame := true}}

/-- A frame decoding to a JPEG reconstruction, partial frames not allowed. -/
def cfgJPEG : FrameConfig := {cfgSingle with isJPEG := true}

/-- All external operations succeed. -/
def envAllOk : ExecEnv := ⟨true, true, true, true⟩

/-- The complete section batch of `cfgMulti`, every section well-formed. -/
def fullBatchMulti : List SectionInfo := (List.range 7).map (fun i => ⟨i, SecOutcome.ok⟩)

/-- The fully decoded, not yet finalised state of a single-section frame. -/
def stFullSingle : FrameState :=
  ⟨true, true, true, false, true, [true], [1], [true], 1, 0, 1⟩

/-- `stFullSingle` after finalisation. -/
def stFinalized : FrameState := {stFullSingle with isFinalized := true}

/-- A concrete `InitFrame` environment in which every external step
succeeds. -/
def envInitBase : InitEnv where
  prevFinalized := true
  parsedHeader := some hdrBase
  baseHeader := hdrBase
  dcFrame0NonEmpty := false
  dimsOk := true
  tocOk := true
  numTocSections := 1
  groupsTotalSize := 0
  groupCodesBegin := 0
  sharedInitOk := true
  isJPEG := false
  numComponents := 3
  xybEncoded := false
  numDcGroups := 1
  numGroups := 1

/-- An `InitFrame` environment whose TOC wraps `group_codes_begin +
groups_total_size` around 2^64. -/
def envTocOverflow : InitEnv :=
  {envInitBase with groupCodesBegin := 2 ^ 64 - 1, groupsTotalSize := 2}

/-- An `InitFrame` environment with an unreadable frame header and a
non-empty DC-frame slot 0. -/
def envNoHeaderDc : InitEnv :=
  {envInitBase with parsedHeader := none, dcFrame0NonEmpty := true}

/-- An `InitFrame` environment with an unreadable frame header and an empty
DC-frame slot 0. -/
def envNoHeaderNoDc : InitEnv :=
  {envInitBase with parsedHeader := none, dcFrame0NonEmpty := false}

/-- The header `InitFrame` synthesises from `envNoHeaderDc`. -/
def hdrSynth : FrameHeader := {hdrBase with flagUseDcFrame := true}

/-- The result `InitFrame` produces from `envNoHeaderDc`. -/
def resNoHeaderDc : InitResult := ⟨hdrSynth, some (clearedState envNoHeaderDc hdrSynth)⟩

theorem getD_set_same {α : Type} {l : List α} {i : Nat} (v d : α) (h : i < l.length) :
    (l.set i v).getD i d = v := by
  simp [List.getD, List.getElem?_set_eq_of_lt v h]

theorem getD_set_other {α : Type} {l : List α} {i j : Nat} (v d : α) (h : i ≠ j) :
    (l.set i v).getD j d = l.getD j d := by
  simp [List.getD, List.getElem?_set_ne h]

theorem getD_true_lt {l : List Bool} {j : Nat} (h : l.getD j false = true) :
    j < l.length := by
  rcases Nat.lt_or_ge j l.length with hlt | hge
  · exact hlt
  · rw [List.getD, List.get?_eq_none.2 hge] at h
    simp at h

theorem getD_set_true_mono {l : List Bool} {i j : Nat} (h : l.getD j false = true) :
    (l.set i true).getD j false = true := by
  rcases eq_or_ne i j with rfl | hne
  · exact getD_set_same true false (getD_true_lt h)
  · rw [getD_set_other true false hne]; exact h

theorem getD_replicate_self {α : Type} {n i : Nat} (a d : α) (h : i < n) :
    (List.replicate n a).getD i d = a := by
  simp [List.getD, List.getElem?_replicate, h]

theorem getD_replicate_default {α : Type} {n i : Nat} (a d : α) (h : n ≤ i) :
    (List.replicate n a).getD i d = d := by
  rw [List.getD, List.get?_eq_none.2 (by simpa using h)]
  rfl

theorem all_id_set_true {l : List Bool} {i : Nat}
    (h : l.all (fun b => b) = true) : (l.set i true).all (fun b => b) = true := by
  rw [List.all_eq_true] at *
  intro b hb
  rcases List.mem_or_eq_of_mem_set hb with h1 | h1
  · exact h b h1
  · simp [h1]

theorem all_replicate_false {n : Nat} (h : 1 ≤ n) :
    (List.replicate n false).all (fun b => b) = false := by
  cases n with
  | zero => omega
  | succ m => simp [List.replicate_succ]

/-- C3: for every frame state satisfying the documented bound
`decoded_passes_per_ac_group[g] ≤ max_passes`, `HasEverything()` holds iff
DC global and AC global are decoded, every DC group is decoded, and every AC
group has exactly `max_passes` decoded passes. -/
theorem hasEverything_characterisation (s : FrameState)
    (hbound : ∀ p ∈ s.decodedPassesPerAcGroup, p ≤ s.maxPasses) :
    hasEverything s = true ↔
      (s.decodedDcGlobal = true ∧ s.decodedAcGlobal = true ∧
        (∀ b ∈ s.decodedDcGroups, b = true) ∧
        (∀ p ∈ s.decodedPassesPerAcGroup, p = s.maxPasses)) := by
  unfold hasEverything
  simp only [Bool.and_eq_true, List.all_eq_true, decide_eq_true_eq]
  constructor
  · rintro ⟨⟨⟨h1, h2⟩, h3⟩, h4⟩
    exact ⟨h1, h2, h3, fun p hp => Nat.le_antisymm (hbound p hp) (h4 p hp)⟩
  · rintro ⟨h1, h2, h3, h4⟩
    exact ⟨⟨⟨h1, h2⟩, h3⟩, fun p hp => Nat.le_of_eq (h4 p hp).symm⟩

theorem hasEverything_characterisation_witness :
    hasEverything stFullSingle = true :=
  (hasEverything_characterisation stFullSingle (by decide)).mpr
    ⟨rfl, rfl, by decide, by decide⟩

/-- C1 counterexample: a fully decoded frame that is not yet finalised.  The
claim predicts `References() = 0` whenever the frame is not finalised, but
the code returns the UseDcFrame bit 16 there; it is on *finalised* frames
that the code returns 0. -/
theorem references_cex :
    references cfgUseDc stFullSingle = 16 ∧ stFullSingle.isFinalized = false ∧
      hasEverything stFullSingle = true ∧
      references cfgUseDc stFinalized = 0 ∧ hasEverything stFinalized = true := by
  decide

theorem foldl_or_blend (cropped : Bool) (l : List BlendingInfo) (a : Nat) :
    l.foldl
      (fun acc bi =>
        if cropped ∨ bi.mode ≠ BlendMode.kReplace then acc ||| (1 <<< bi.source)
        else acc) a
      = a ||| blendSourceBits cropped l := by
  induction l generalizing a with
  | nil => simp [blendSourceBits]
  | cons bi rest ih =>
    simp only [List.foldl_cons, blendSourceBits, List.foldr_cons]
    by_cases hc : cropped = true ∨ bi.mode ≠ BlendMode.kReplace
    · rw [if_pos hc, if_pos hc, ih, Nat.or_assoc]
      rfl
    · rw [if_neg hc, if_neg hc, ih]
      have h0 : rest.foldr
          (fun bi acc =>
            (if cropped ∨ bi.mode ≠ BlendMode.kReplace then 1 <<< bi.source else 0) ||| acc)
          0 = blendSourceBits cropped rest := rfl
      rw [h0, Nat.zero_or]

theorem blendSourceBits_cons (c : Bool) (bi : BlendingInfo) (l : List BlendingInfo) :
    blendSourceBits c (bi :: l) =
      (if c ∨ bi.mode ≠ BlendMode.kReplace then 1 <<< bi.source else 0) |||
        blendSourceBits c l := rfl

/-- C1 (amended): `References()` equals the §4.6 formula with the
finalisation condition corrected, i.e. it is 0 when the frame *is*
finalised or does not have everything, and otherwise ORs the blending
source bits, the patch reference bits and the DC-frame bit. -/
theorem references_eq_referencesSpec (cfg : FrameConfig) (s : FrameState) :
    references cfg s = referencesSpec cfg s := by
  unfold references referencesSpec
  by_cases hf : s.isFinalized
  · simp [hf]
  · by_cases he : hasEverything s
    · by_cases ht : cfg.header.frameType = FrameType.kRegularFrame ∨
          cfg.header.frameType = FrameType.kSkipProgressive
      · by_cases hp : cfg.header.flagPatches <;>
          by_cases hd : cfg.header.flagUseDcFrame <;>
            by_cases hcr : cfg.header.customSizeOrOrigin = true ∨
              cfg.header.blendingInfo.mode ≠ BlendMode.kReplace <;>
            simp [hf, he, ht, hp, hd, hcr, foldl_or_blend, blendSourceBits_cons,
              Nat.or_assoc, Nat.or_zero, Nat.zero_or]
      · by_cases hp : cfg.header.flagPatches <;>
          by_cases hd : cfg.header.flagUseDcFrame <;>
            simp [hf, he, ht, hp, hd, Nat.or_assoc, Nat.or_zero, Nat.zero_or]
    · have he2 : hasEverything s = false := by simpa using he
      simp [hf, he2]

theorem allocateOutput_isFinalized (env : ExecEnv) (s : FrameState) :
    (allocateOutput env s).1.isFinalized = s.isFinalized := by
  unfold allocateOutput
  split
  · rfl
  · split <;> rfl

theorem flush_isFinalized (cfg : FrameConfig) (env : ExecEnv) (s : FrameState) :
    (flush cfg env s).1.isFinalized = s.isFinalized := by
  unfold flush
  dsimp only
  split
  · rfl
  · split
    · rfl
    · split
      · rfl
      · split
        · next s1 e heq =>
          have := allocateOutput_isFinalized env s
          rw [heq] at this
          exact this
        · next s1 heq =>
          have := allocateOutput_isFinalized env s
          rw [heq] at this
          split
          · exact this
          · split <;> exact this

/-- C9: `FinalizeFrame` succeeds at most once: on a state whose finalised
flag is set it fails with "FinalizeFrame called multiple times" and performs
no further work (the state is returned unchanged), and every call leaves the
finalised flag set, so a second call after any first call fails. -/
theorem finalizeFrame_at_most_once :
    ∀ (cfg : FrameConfig) (env : ExecEnv) (s : FrameState),
      (s.isFinalized = true →
        finalizeFrame cfg env s = (s, some "FinalizeFrame called multiple times")) ∧
      (finalizeFrame cfg env s).1.isFinalized = true := by
  intro cfg env s
  constructor
  · intro h
    unfold finalizeFrame
    rw [h]
    rfl
  · unfold finalizeFrame
    by_cases h : s.isFinalized
    · simp [h]
    · rw [if_neg (by simp [h])]
      dsimp only
      split
      · rfl
      split
      · rfl
      split
      · rfl
      split
      · split
        · next s2 e heq =>
          have hx := allocateOutput_isFinalized env {s with isFinalized := true}
          rw [heq] at hx
          exact hx
        · next s2 heq =>
          have hx := allocateOutput_isFinalized env {s with isFinalized := true}
          rw [heq] at hx
          rw [flush_isFinalized]
          exact hx
      · rw [flush_isFinalized]

theorem finalizeFrame_at_most_once_witness :
    finalizeFrame cfgSingle envAllOk stFinalized =
      (stFinalized, some "FinalizeFrame called multiple times") :=
  (finalizeFrame_at_most_once cfgSingle envAllOk stFinalized).1 (by decide)

/-- C2 counterexample: a JPEG-reconstruction frame.  `FinalizeFrame` returns
success from the JPEG early-out before the `HasEverything() ∨
allow_partial_frames` check, so a successful call need not satisfy the
claim's implication. -/
theorem finalizeFrame_jpeg_cex :
    (finalizeFrame cfgJPEG envAllOk (initialState cfgJPEG)).2 = none ∧
    (finalizeFrame cfgJPEG envAllOk (initialState cfgJPEG)).1.isFinalized = true ∧
    hasEverything (finalizeFrame cfgJPEG envAllOk (initialState cfgJPEG)).1 = false ∧
    cfgJPEG.allowPartialFrames = false ∧
    (initialState cfgJPEG).isFinalized = false := by decide

/-- C2 (amended): on a not-yet-finalised frame, `FinalizeFrame` fails with
"FinalizeFrame called before the frame was fully decoded" unless
`HasEverything()` holds, `allow_partial_frames` was set at `InitFrame`, or
the output is a JPEG reconstruction; equivalently every successful call
implies that disjunction. -/
theorem finalizeFrame_guard (cfg : FrameConfig) (env : ExecEnv) (s : FrameState)
    (h : s.isFinalized = false) :
    (hasEverything s = false → cfg.allowPartialFrames = false → cfg.isJPEG = false →
      finalizeFrame cfg env s =
        ({s with isFinalized := true},
          some "FinalizeFrame called before the frame was fully decoded")) ∧
    ((finalizeFrame cfg env s).2 = none →
      hasEverything s = true ∨ cfg.allowPartialFrames = true ∨ cfg.isJPEG = true) := by
  have heq : hasEverything {s with isFinalized := true} = hasEverything s := rfl
  constructor
  · intro h1 h2 h3
    unfold finalizeFrame
    rw [h]
    simp [h1, h2, h3, heq]
  · intro hsucc
    by_cases hj : cfg.isJPEG
    · exact Or.inr (Or.inr hj)
    · by_cases hhe : hasEverything s = true
      · exact Or.inl hhe
      · by_cases hap : cfg.allowPartialFrames = true
        · exact Or.inr (Or.inl hap)
        · exfalso
          unfold finalizeFrame at hsucc
          rw [h] at hsucc
          simp [hj, heq, hhe, hap] at hsucc

theorem finalizeFrame_guard_witness :
    finalizeFrame cfgSingle envAllOk (initialState cfgSingle) =
      ({initialState cfgSingle with isFinalized := true},
        some "FinalizeFrame called before the frame was fully decoded") :=
  (finalizeFrame_guard cfgSingle envAllOk (initialState cfgSingle) (by decide)).1
    (by decide) (by decide) (by decide)

/-- C8: when `InitFrame` reaches the TOC with a header in hand, dimensions
verified and the TOC read, a wrapped `group_codes_begin + groups_total_size`
makes it fail with "Invalid group codes". -/
theorem initFrame_toc_overflow (env : InitEnv) (h : FrameHeader)
    (apf outputNeeded : Bool)
    (h1 : env.prevFinalized = true) (h2 : env.parsedHeader = some h)
    (h3 : env.dimsOk = true) (h4 : env.tocOk = true)
    (h5 : (env.groupCodesBegin + env.groupsTotalSize) % 2 ^ 64 < env.groupCodesBegin) :
    initFrame env apf outputNeeded = Except.error "Invalid group codes" := by
  have hred : initFrame env apf outputNeeded = initFrameCont env h apf outputNeeded := by
    unfold initFrame
    rw [h1, h2]
    simp
  rw [hred]
  unfold initFrameCont
  rw [if_neg (by simp [h3]), if_neg (by simp [h4]), if_pos h5]

theorem initFrame_toc_overflow_witness :
    initFrame envTocOverflow false true = Except.error "Invalid group codes" :=
  initFrame_toc_overflow envTocOverflow hdrBase false true rfl rfl rfl rfl (by decide)

theorem initFrameCont_cases (env : InitEnv) (h : FrameHeader) (apf outputNeeded : Bool) :
    (∃ r, initFrameCont env h apf outputNeeded = Except.ok r ∧ r.header = h) ∨
    (∃ e, initFrameCont env h apf outputNeeded = Except.error e ∧
      e ≠ "Couldn't read frame header") := by
  unfold initFrameCont
  repeat' split
  all_goals
    first
      | exact Or.inl ⟨_, rfl, rfl⟩
      | exact Or.inr ⟨_, rfl, by decide⟩

/-- C10: when the frame header cannot be read and `allow_partial_frames` is
true, `InitFrame` fails with "Couldn't read frame header" exactly when
DC-frame slot 0 is empty; when the slot is non-empty it continues with a
synthesised header carrying the UseDcFrame flag, VarDCT encoding and DC
level 0, and never returns that error. -/
theorem initFrame_header_fallback (env : InitEnv) (outputNeeded : Bool)
    (h1 : env.prevFinalized = true) (h2 : env.parsedHeader = none) :
    (env.dcFrame0NonEmpty = false →
      initFrame env true outputNeeded = Except.error "Couldn't read frame header") ∧
    (env.dcFrame0NonEmpty = true →
      (∀ e, initFrame env true outputNeeded = Except.error e →
        e ≠ "Couldn't read frame header") ∧
      (∀ r, initFrame env true outputNeeded = Except.ok r →
        r.header.flagUseDcFrame = true ∧ r.header.encoding = FrameEncoding.kVarDCT ∧
          r.header.dcLevel = 0)) := by
  constructor
  · intro hdc
    unfold initFrame
    rw [h1, h2]
    simp [hdc]
  · intro hdc
    have hred : initFrame env true outputNeeded =
        initFrameCont env
          {env.baseHeader with
            flagUseDcFrame := true
            encoding := FrameEncoding.kVarDCT
            dcLevel := 0} true outputNeeded := by
      unfold initFrame
      rw [h1, h2]
      simp [hdc]
    rw [hred]
    rcases initFrameCont_cases env
        {env.baseHeader with
          flagUseDcFrame := true
          encoding := FrameEncoding.kVarDCT
          dcLevel := 0} true outputNeeded with ⟨r0, hok, hhdr⟩ | ⟨e0, herr, hne⟩
    · constructor
      · intro e he
        rw [hok] at he
        exact absurd he (by simp)
      · intro r hr
        rw [hok] at hr
        injection hr with hr
        subst hr
        rw [hhdr]
        exact ⟨rfl, rfl, rfl⟩
    · constructor
      · intro e he
        rw [herr] at he
        injection he with he
        subst he
        exact hne
      · intro r hr
        rw [herr] at hr
        exact absurd hr (by simp)

theorem initFrame_header_fallback_witness :
    initFrame envNoHeaderNoDc true true = Except.error "Couldn't read frame header" ∧
    (resNoHeaderDc.header.flagUseDcFrame = true ∧
      resNoHeaderDc.header.encoding = FrameEncoding.kVarDCT ∧
      resNoHeaderDc.header.dcLevel = 0) :=
  ⟨(initFrame_header_fallback envNoHeaderNoDc true rfl rfl).1 rfl,
   ((initFrame_header_fallback envNoHeaderDc true rfl rfl).2 rfl).2 resNoHeaderDc rfl⟩

/-- C6 counterexample: in `cfgMulti` (7 TOC sections, 2 passes), section id
7 encodes an AC-group pass index 2 ≥ num_passes = 2, yet the call aborts on
the id-bounds assertion `sections[i].id < processed_section_.size()` and
does not return "Invalid section ID" — pass indices beyond num_passes always
lie beyond the section table, so that check is unreachable. -/
theorem invalid_section_assert_cex :
    (processSections cfgMulti envAllOk (initialState cfgMulti)
        [⟨7, SecOutcome.ok⟩]).err = some "JXL_ASSERT: section id out of bounds" ∧
    (processSections cfgMulti envAllOk (initialState cfgMulti)
        [⟨7, SecOutcome.ok⟩]).err ≠ some "Invalid section ID" ∧
    cfgMulti.header.numPasses ≤
      (7 - (cfgMulti.numDcGroups + 1) - 1) / cfgMulti.numGroups := by decide

/-- C7 counterexample: a reference-only frame bypasses downsampling, so
`max_downsampling = 8` does not force `max_passes = 0` — the scheduler keeps
the full 2 passes. -/
theorem maxPasses_refonly_cex :
    computeMaxPasses 2 8 hdrRefOnly = 2 ∧ (8 : Nat) ≤ 8 ∧ hdrRefOnly.dcLevel = 0 := by
  decide

/-- C5 counterexample: a batch holding one AC-group section that arrives
before AC global.  The first call succeeds with the entry Skipped and its
processed bit cleared, so the identical second call reports Skipped again,
not Duplicate. -/
theorem duplicate_law_cex :
    (processSections cfgMulti envAllOk (initialState cfgMulti)
        [⟨3, SecOutcome.ok⟩]).err = none ∧
    (processSections cfgMulti envAllOk
        (processSections cfgMulti envAllOk (initialState cfgMulti)
          [⟨3, SecOutcome.ok⟩]).state
        [⟨3, SecOutcome.ok⟩]).status = [SectionStatus.kSkipped] := by decide

theorem dcPool_sentinel (secs : List SectionInfo) (num : Nat) (l : List Nat)
    (g : Nat) (groups : List Bool) (st : List SectionStatus) (he : Bool)
    (h : ∀ j ∈ l, j = num) :
    dcPool secs num l g groups st he = (groups, st, he) := by
  induction l generalizing g with
  | nil => rfl
  | cons x xs ih =>
    unfold dcPool
    rw [if_pos (h x (List.mem_cons_self x xs))]
    exact ih (g + 1) (fun j hj => h j (List.mem_cons_of_mem x hj))

theorem acPool_zero (secs : List SectionInfo) (num : Nat) (rows : List (List Nat))
    (ns : List Nat) (g : Nat) (passes : List Nat) (st : List SectionStatus) (he : Bool)
    (h : ∀ n ∈ ns, n = 0) :
    acPool secs num rows ns g passes st he = (passes, st, he) := by
  induction rows generalizing ns g with
  | nil => rfl
  | cons r rs ih =>
    cases ns with
    | nil => rfl
    | cons n ns2 =>
      unfold acPool
      rw [if_pos (h n (List.mem_cons_self n ns2))]
      exact ih ns2 (g + 1) (fun m hm => h m (List.mem_cons_of_mem n hm))

theorem classifyGo_numAcPasses (numGroups acGlobalIndex maxPasses numPassesHdr : Nat)
    (i : Nat) (secs : List SectionInfo) (co : ClassifyOut) :
    (classifyGo numGroups acGlobalIndex maxPasses numPassesHdr i secs co).numAcPasses =
      co.numAcPasses := by
  induction secs generalizing i co with
  | nil => rfl
  | cons sec rest ih =>
    unfold classifyGo
    dsimp only
    repeat' split
    all_goals first | rfl | simp [ih]

theorem classifyGo_processed_length (numGroups acGlobalIndex maxPasses numPassesHdr : Nat)
    (i : Nat) (secs : List SectionInfo) (co : ClassifyOut) :
    (classifyGo numGroups acGlobalIndex maxPasses numPassesHdr i secs co).processed.length =
      co.processed.length := by
  induction secs generalizing i co with
  | nil => rfl
  | cons sec rest ih =>
    unfold classifyGo
    dsimp only
    repeat' split
    all_goals first | rfl | simp [ih]

theorem countFrom_zero (row : List Nat) (num start : Nat) :
    countFrom row num start 0 = 0 := rfl

theorem classifyMulti_numAcPasses_zero {cfg : FrameConfig} {s : FrameState}
    {secs : List SectionInfo} (h0 : s.maxPasses = 0) :
    ∀ n ∈ (classifyMulti cfg s secs).numAcPasses, n = 0 := by
  unfold classifyMulti
  dsimp only
  split
  · rw [classifyGo_numAcPasses]
    intro n hn
    exact (List.eq_of_mem_replicate hn)
  · intro n hn
    dsimp only at hn
    rcases List.mem_map.1 hn with ⟨g, _, hg⟩
    rw [h0] at hg
    simp only [Nat.zero_sub, countFrom_zero] at hg
    exact hg.symm

theorem allocateOutput_fieldsKept (env : ExecEnv) (s : FrameState) :
    (allocateOutput env s).1.decodedDcGlobal = s.decodedDcGlobal ∧
    (allocateOutput env s).1.decodedAcGlobal = s.decodedAcGlobal ∧
    (allocateOutput env s).1.finalizedDc = s.finalizedDc ∧
    (allocateOutput env s).1.decodedDcGroups = s.decodedDcGroups ∧
    (allocateOutput env s).1.decodedPassesPerAcGroup = s.decodedPassesPerAcGroup ∧
    (allocateOutput env s).1.processedSection = s.processedSection ∧
    (allocateOutput env s).1.maxPasses = s.maxPasses ∧
    (allocateOutput env s).1.numSectionsDone = s.numSectionsDone ∧
    (allocateOutput env s).1.numRenders = s.numRenders := by
  unfold allocateOutput
  split
  · exact ⟨rfl, rfl, rfl, rfl, rfl, rfl, rfl, rfl, rfl⟩
  · split <;> exact ⟨rfl, rfl, rfl, rfl, rfl, rfl, rfl, rfl, rfl⟩

theorem stageInv_allocate {env : ExecEnv} {s : FrameState} (h : StageOrderInv s) :
    StageOrderInv (allocateOutput env s).1 := by
  unfold allocateOutput
  split
  · exact h
  · split
    · exact h
    · exact h

theorem psMark_stageInv {secs : List SectionInfo} {s : FrameState}
    {st : List SectionStatus} (h : StageOrderInv s) :
    StageOrderInv (psMark secs s st).state := h

theorem psAcPool_stageInv {secs : List SectionInfo} {co : ClassifyOut} {s : FrameState}
    {st : List SectionStatus} (h : StageOrderInv s) :
    StageOrderInv (psAcPool secs co s st).state := by
  unfold psAcPool
  dsimp only
  split
  · split
    · exact h
    · exact psMark_stageInv h
  · exact psMark_stageInv h

theorem psAcGlobal_stageInv {secs : List SectionInfo} {co : ClassifyOut} {s : FrameState}
    {st : List SectionStatus} (h : StageOrderInv s) :
    StageOrderInv (psAcGlobal secs co s st).state := by
  unfold psAcGlobal
  split
  · next hcond =>
    split
    · exact psAcPool_stageInv ⟨h.1, h.2.1, fun _ => hcond.1⟩
    all_goals exact h
  · exact psAcPool_stageInv h

theorem psFinalize_stageInv {cfg : FrameConfig} {env : ExecEnv} {secs : List SectionInfo}
    {co : ClassifyOut} {single : Bool} {s : FrameState} {st : List SectionStatus}
    (h : StageOrderInv s) :
    StageOrderInv (psFinalize cfg env secs co single s st).state := by
  unfold psFinalize
  split
  · next hcond =>
    split
    · have h1 : StageOrderInv {s with finalizedDc := true} :=
        ⟨h.1, fun _ => ⟨h.1 hcond.1, hcond.1⟩, fun _ => rfl⟩
      have hx := @stageInv_allocate env _ h1
      dsimp only
      rcases hA : allocateOutput env {s with finalizedDc := true} with ⟨s2, e2⟩
      rw [hA] at hx
      simp only at hx
      cases e2 with
      | some e => exact hx
      | none =>
        dsimp only
        split
        · split
          · exact psMark_stageInv hx
          · exact psAcGlobal_stageInv hx
        · exact psAcGlobal_stageInv hx
    · exact h
  · exact psAcGlobal_stageInv h

theorem dcPool_all_mono {secs : List SectionInfo} {num : Nat} {l : List Nat}
    {g : Nat} {groups : List Bool} {st : List SectionStatus} {he : Bool}
    (h : groups.all (fun b => b) = true) :
    (dcPool secs num l g groups st he).1.all (fun b => b) = true := by
  induction l generalizing g groups st he with
  | nil => exact h
  | cons x xs ih =>
    unfold dcPool
    split
    · exact ih h
    · split
      · exact ih (all_id_set_true h)
      · exact ih h

theorem psDcPool_stageInv {cfg : FrameConfig} {env : ExecEnv} {secs : List SectionInfo}
    {co : ClassifyOut} {single : Bool} {s : FrameState} {st : List SectionStatus}
    (h : StageOrderInv s) :
    StageOrderInv (psDcPool cfg env secs co single s st).state := by
  unfold psDcPool
  dsimp only
  by_cases hg : s.decodedDcGlobal = true
  · rw [if_pos hg]
    have h1 : StageOrderInv
        {s with decodedDcGroups :=
          (dcPool secs secs.length co.dcGroupSec 0 s.decodedDcGroups st false).1} :=
      ⟨fun _ => hg, fun hf => ⟨hg, dcPool_all_mono (h.2.1 hf).2⟩, h.2.2⟩
    split
    · exact h1
    · exact psFinalize_stageInv h1
  · rw [if_neg hg]
    dsimp only
    exact psFinalize_stageInv h

theorem psDcGlobal_stageInv {cfg : FrameConfig} {env : ExecEnv} {secs : List SectionInfo}
    {co : ClassifyOut} {single : Bool} {s : FrameState} {st : List SectionStatus}
    (h : StageOrderInv s) :
    StageOrderInv (psDcGlobal cfg env secs co single s st).state := by
  unfold psDcGlobal
  split
  · split
    · exact h
    · exact psDcPool_stageInv ⟨fun _ => rfl, fun hf => ⟨rfl, (h.2.1 hf).2⟩, h.2.2⟩
    · exact psDcPool_stageInv h
  · exact psDcPool_stageInv h

theorem processSections_stageInv {cfg : FrameConfig} {env : ExecEnv} {s : FrameState}
    {secs : List SectionInfo} (h : StageOrderInv s) :
    StageOrderInv (processSections cfg env s secs).state := by
  unfold processSections
  split
  · exact h
  · dsimp only
    split
    · exact h
    · exact psDcGlobal_stageInv h

/-- C4: in every state reachable from a fresh `InitFrame` (by any sequence
of `ProcessSections` calls, successful or failing, and `SetMaxPasses`
updates) of a frame with at least one DC group, a finalised DC implies DC
global decoded and every DC group decoded, and a decoded AC global implies a
finalised DC. -/
theorem reachable_stage_order (cfg : FrameConfig) (hD : 1 ≤ cfg.numDcGroups)
    (s : FrameState) (hs : Reachable cfg s) :
    (s.finalizedDc = true → s.decodedDcGlobal = true ∧
      s.decodedDcGroups.all (fun b => b) = true) ∧
    (s.decodedAcGlobal = true → s.finalizedDc = true) := by
  suffices h : StageOrderInv s by exact ⟨h.2.1, h.2.2⟩
  induction hs with
  | init =>
    refine ⟨?_, ?_, ?_⟩
    · intro hall
      have : (List.replicate cfg.numDcGroups false).all (fun b => b) = true := hall
      rw [all_replicate_false hD] at this
      cases this
    · intro hf
      cases hf
    · intro ha
      cases ha
  | step env secs hr ih => exact processSections_stageInv ih
  | setMaxPasses m hr ih => exact ih

theorem reachable_stage_order_witness :
    (processSections cfgSingle envAllOk (initialState cfgSingle)
        [⟨0, SecOutcome.ok⟩]).state.decodedDcGlobal = true ∧
    (processSections cfgSingle envAllOk (initialState cfgSingle)
        [⟨0, SecOutcome.ok⟩]).state.decodedDcGroups.all (fun b => b) = true :=
  (reachable_stage_order cfgSingle (by decide) _
    (Reachable.step envAllOk [⟨0, SecOutcome.ok⟩] Reachable.init)).1 (by decide)

theorem psMark_passes (secs : List SectionInfo) (s : FrameState)
    (st : List SectionStatus) :
    (psMark secs s st).state.decodedPassesPerAcGroup = s.decodedPassesPerAcGroup := rfl

theorem psAcPool_passes {secs : List SectionInfo} {co : ClassifyOut} {s : FrameState}
    {st : List SectionStatus} (h : ∀ n ∈ co.numAcPasses, n = 0) :
    (psAcPool secs co s st).state.decodedPassesPerAcGroup =
      s.decodedPassesPerAcGroup := by
  unfold psAcPool
  dsimp only
  split
  · rw [acPool_zero _ _ _ _ _ _ _ _ h]
    rw [if_neg (show ¬(false = true) by decide)]
    rw [psMark_passes]
  · rw [psMark_passes]

theorem psAcGlobal_passes {secs : List SectionInfo} {co : ClassifyOut} {s : FrameState}
    {st : List SectionStatus} (h : ∀ n ∈ co.numAcPasses, n = 0) :
    (psAcGlobal secs co s st).state.decodedPassesPerAcGroup =
      s.decodedPassesPerAcGroup := by
  unfold psAcGlobal
  split
  · split
    · exact psAcPool_passes h
    all_goals rfl
  · exact psAcPool_passes h

theorem psFinalize_passes {cfg : FrameConfig} {env : ExecEnv} {secs : List SectionInfo}
    {co : ClassifyOut} {single : Bool} {s : FrameState} {st : List SectionStatus}
    (h : ∀ n ∈ co.numAcPasses, n = 0) :
    (psFinalize cfg env secs co single s st).state.decodedPassesPerAcGroup =
      s.decodedPassesPerAcGroup := by
  unfold psFinalize
  split
  · split
    · have hal :=
        (allocateOutput_fieldsKept env {s with finalizedDc := true}).2.2.2.2.1
      dsimp only
      rcases hA : allocateOutput env {s with finalizedDc := true} with ⟨s2, e2⟩
      rw [hA] at hal
      simp only at hal
      cases e2 with
      | some e => exact hal
      | none =>
        dsimp only
        split
        · split
          · rw [psMark_passes]; exact hal
          · rw [psAcGlobal_passes h]; exact hal
        · rw [psAcGlobal_passes h]; exact hal
    · rfl
  · exact psAcGlobal_passes h

theorem psDcPool_passes {cfg : FrameConfig} {env : ExecEnv} {secs : List SectionInfo}
    {co : ClassifyOut} {single : Bool} {s : FrameState} {st : List SectionStatus}
    (h : ∀ n ∈ co.numAcPasses, n = 0) :
    (psDcPool cfg env secs co single s st).state.decodedPassesPerAcGroup =
      s.decodedPassesPerAcGroup := by
  unfold psDcPool
  dsimp only
  by_cases hg : s.decodedDcGlobal = true
  · rw [if_pos hg]
    split
    · rfl
    · exact psFinalize_passes h
  · rw [if_neg hg]
    dsimp only
    exact psFinalize_passes h

theorem psDcGlobal_passes {cfg : FrameConfig} {env : ExecEnv} {secs : List SectionInfo}
    {co : ClassifyOut} {single : Bool} {s : FrameState} {st : List SectionStatus}
    (h : ∀ n ∈ co.numAcPasses, n = 0) :
    (psDcGlobal cfg env secs co single s st).state.decodedPassesPerAcGroup =
      s.decodedPassesPerAcGroup := by
  unfold psDcGlobal
  split
  · split
    · rfl
    · exact psDcPool_passes h
    · exact psDcPool_passes h
  · exact psDcPool_passes h

theorem processSections_passes_maxZero (cfg : FrameConfig) (env : ExecEnv)
    (s : FrameState) (secs : List SectionInfo)
    (hns : ¬ (cfg.numGroups = 1 ∧ cfg.header.numPasses = 1))
    (h0 : s.maxPasses = 0) :
    (processSections cfg env s secs).state.decodedPassesPerAcGroup =
      s.decodedPassesPerAcGroup := by
  unfold processSections
  split
  · rfl
  · dsimp only
    rw [if_neg hns]
    split
    · rfl
    · exact psDcGlobal_passes (classifyMulti_numAcPasses_zero h0)

/-- C7 (amended): when the effective `max_downsampling` (the requested one
shifted down 3 bits per DC level, at least 1) is 8 or more and the frame is
not reference-only, `DecodeFrame` sets the effective `max_passes` to 0; and
with `max_passes = 0` a multi-section `ProcessSections` call advances no
AC-group pass counter, whatever sections are supplied. -/
theorem maxPasses_zero_clip :
    (∀ (dpMaxPasses dpMaxDownsampling : Nat) (hdr : FrameHeader),
      hdr.frameType ≠ FrameType.kReferenceOnly →
      8 ≤ Nat.max (dpMaxDownsampling >>> (hdr.dcLevel * 3)) 1 →
      computeMaxPasses dpMaxPasses dpMaxDownsampling hdr = 0) ∧
    (∀ (cfg : FrameConfig) (env : ExecEnv) (s : FrameState) (secs : List SectionInfo),
      ¬ (cfg.numGroups = 1 ∧ cfg.header.numPasses = 1) →
      s.maxPasses = 0 →
      (processSections cfg env s secs).state.decodedPassesPerAcGroup =
        s.decodedPassesPerAcGroup) := by
  constructor
  · intro mp ds hdr href hge
    unfold computeMaxPasses
    dsimp only
    rw [if_pos hge, if_neg href]
    exact Nat.zero_min _
  · intro cfg env s secs hns h0
    exact processSections_passes_maxZero cfg env s secs hns h0

theorem maxPasses_zero_clip_witness :
    computeMaxPasses 2 8 hdrTwoPass = 0 ∧
    (processSections cfgMulti envAllOk {initialState cfgMulti with maxPasses := 0}
        fullBatchMulti).state.decodedPassesPerAcGroup =
      {initialState cfgMulti with maxPasses := 0}.decodedPassesPerAcGroup :=
  ⟨maxPasses_zero_clip.1 2 8 hdrTwoPass (by decide) (by decide),
   maxPasses_zero_clip.2 cfgMulti envAllOk {initialState cfgMulti with maxPasses := 0}
     fullBatchMulti (by decide) rfl⟩

theorem set_false_noop {l : List Bool} {i : Nat} (h : l.getD i false = false) :
    l.set i false = l := by
  induction l generalizing i with
  | nil => rfl
  | cons x xs ih =>
    cases i with
    | zero =>
      rw [List.getD_cons_zero] at h
      rw [h]
      rfl
    | succ n =>
      rw [List.getD_cons_succ] at h
      rw [List.set_cons_succ, ih h]

theorem getD_replicate_all {α : Type} (n k : Nat) (a : α) :
    (List.replicate n a).getD k a = a := by
  rcases Nat.lt_or_ge k n with hlt | hge
  · exact getD_replicate_self a a hlt
  · exact getD_replicate_default a a hge

theorem countFrom_replicate (np num start fuel : Nat) :
    countFrom (List.replicate np num) num start fuel = 0 := by
  cases fuel with
  | zero => rfl
  | succ k =>
    unfold countFrom
    rw [if_pos (getD_replicate_all np start num)]

theorem classifyGo_bad_id (numGroups acGlobalIndex maxPasses numPassesHdr : Nat)
    (hG : 1 ≤ numGroups) :
    ∀ (secs : List SectionInfo) (i : Nat) (co : ClassifyOut),
      co.processed.length ≤ acGlobalIndex + 1 + numGroups * numPassesHdr →
      (∃ sec ∈ secs, acGlobalIndex + 1 + numGroups * numPassesHdr ≤ sec.id) →
      (classifyGo numGroups acGlobalIndex maxPasses numPassesHdr i secs co).err =
        some "JXL_ASSERT: section id out of bounds" := by
  intro secs
  induction secs with
  | nil =>
    intro i co _ hbad
    rcases hbad with ⟨sec, hmem, _⟩
    cases hmem
  | cons sec rest ih =>
    intro i co hlen hbad
    unfold classifyGo
    dsimp only
    by_cases hin : sec.id < co.processed.length
    · rw [if_pos hin]
      have hbadr : ∃ s2 ∈ rest,
          acGlobalIndex + 1 + numGroups * numPassesHdr ≤ s2.id := by
        rcases hbad with ⟨s2, hmem, hge⟩
        rcases List.mem_cons.1 hmem with rfl | hmem2
        · omega
        · exact ⟨s2, hmem2, hge⟩
      by_cases hdup : co.processed.getD sec.id false = true
      · rw [if_pos hdup]
        exact ih (i + 1) _ hlen hbadr
      · rw [if_neg hdup]
        by_cases h0 : sec.id = 0
        · rw [if_pos h0]
          exact ih (i + 1) _ (by simpa [List.length_set] using hlen) hbadr
        · rw [if_neg h0]
          by_cases hlow : sec.id < acGlobalIndex
          · rw [if_pos hlow]
            exact ih (i + 1) _ (by simpa [List.length_set] using hlen) hbadr
          · rw [if_neg hlow]
            by_cases hagi : sec.id = acGlobalIndex
            · rw [if_pos hagi]
              exact ih (i + 1) _ (by simpa [List.length_set] using hlen) hbadr
            · rw [if_neg hagi]
              by_cases hacp : numPassesHdr ≤ (sec.id - acGlobalIndex - 1) / numGroups
              · exfalso
                have hmul : numGroups * numPassesHdr ≤ sec.id - acGlobalIndex - 1 := by
                  rw [Nat.mul_comm]
                  exact (Nat.le_div_iff_mul_le hG).1 hacp
                omega
              · rw [if_neg hacp]
                by_cases hmp : maxPasses ≤ (sec.id - acGlobalIndex - 1) / numGroups
                · rw [if_pos hmp]
                  exact ih (i + 1) _ hlen hbadr
                · rw [if_neg hmp]
                  exact ih (i + 1) _ (by simpa [List.length_set] using hlen) hbadr
    · rw [if_neg hin]

theorem classifyMulti_err_eq (cfg : FrameConfig) (s : FrameState)
    (secs : List SectionInfo) :
    (classifyMulti cfg s secs).err =
      (classifyGo cfg.numGroups (cfg.numDcGroups + 1) s.maxPasses cfg.header.numPasses 0
        secs (emptyClassify cfg s secs.length)).err := by
  unfold classifyMulti
  dsimp only
  split
  · rfl
  · rfl

theorem classifyGo_all_soft (numGroups acGlobalIndex maxPasses numPassesHdr : Nat)
    (secs : List SectionInfo) (co : ClassifyOut)
    (h : ∀ sec ∈ secs,
      sec.id < co.processed.length ∧
      co.processed.getD sec.id false = false ∧
      acGlobalIndex < sec.id ∧
      maxPasses ≤ (sec.id - acGlobalIndex - 1) / numGroups ∧
      (sec.id - acGlobalIndex - 1) / numGroups < numPassesHdr) :
    ∀ i : Nat, classifyGo numGroups acGlobalIndex maxPasses numPassesHdr i secs co = co := by
  induction secs with
  | nil => intro i; rfl
  | cons sec rest ih =>
    intro i
    obtain ⟨hin, hdup, hgt, hmp, hnp⟩ := h sec (List.mem_cons_self sec rest)
    unfold classifyGo
    dsimp only
    rw [if_pos hin, if_neg (show ¬(co.processed.getD sec.id false = true) by
        rw [hdup]; simp),
      if_neg (by omega), if_neg (by omega), if_neg (by omega), if_neg (by omega),
      if_pos hmp]
    exact ih (fun s2 hs2 => h s2 (List.mem_cons_of_mem sec hs2)) (i + 1)

theorem markSectionsGo_skip_noop (st : List SectionStatus) :
    ∀ (secs : List SectionInfo) (i : Nat) (p : List Bool) (d : Nat),
      (∀ k, st.getD k SectionStatus.kSkipped = SectionStatus.kSkipped) →
      (∀ sec ∈ secs, p.getD sec.id false = false) →
      markSectionsGo st secs i p d = (p, d - secs.length) := by
  intro secs
  induction secs with
  | nil => intro i p d _ _; rfl
  | cons sec rest ih =>
    intro i p d hst hp
    unfold markSectionsGo
    dsimp only
    rw [if_pos (Or.inl (hst i))]
    rw [set_false_noop (hp sec (List.mem_cons_self sec rest))]
    rw [ih (i + 1) p (d - 1) hst (fun s2 h2 => hp s2 (List.mem_cons_of_mem sec h2))]
    have hd : d - 1 - rest.length = d - (sec :: rest).length := by
      rw [List.length_cons]
      omega
    rw [hd]

/-- When the classification stored no role (all sentinels, zero new passes)
and DC cannot be freshly finalised, the remaining stages of
`ProcessSections` reduce to the closing `MarkSections` pass. -/
theorem psDcGlobal_inert (cfg : FrameConfig) (env : ExecEnv) (secs : List SectionInfo)
    (co : ClassifyOut) (single : Bool) (s : FrameState) (st : List SectionStatus)
    (h1 : co.dcGlobalSec = secs.length)
    (h2 : co.acGlobalSec = secs.length)
    (h3 : ∀ j ∈ co.dcGroupSec, j = secs.length)
    (h4 : ∀ n ∈ co.numAcPasses, n = 0)
    (hfin : s.decodedDcGroups.all (fun b => b) = true → s.finalizedDc = true) :
    psDcGlobal cfg env secs co single s st = psMark secs s st := by
  unfold psDcGlobal
  rw [if_neg (by simp [h1])]
  unfold psDcPool
  dsimp only
  have hpool : (if s.decodedDcGlobal = true then
      dcPool secs secs.length co.dcGroupSec 0 s.decodedDcGroups st false
    else (s.decodedDcGroups, st, false)) = (s.decodedDcGroups, st, false) := by
    split
    · exact dcPool_sentinel secs secs.length co.dcGroupSec 0 s.decodedDcGroups st false h3
    · rfl
  rw [hpool]
  rw [if_neg (show ¬(false = true) by decide)]
  unfold psFinalize
  rw [if_neg (fun hc => hc.2 (hfin hc.1))]
  unfold psAcGlobal
  rw [if_neg (fun hc => hc.2.1 h2)]
  unfold psAcPool
  dsimp only
  split
  · rw [acPool_zero _ _ _ _ _ _ _ _ h4]
    rw [if_neg (show ¬(false = true) by decide)]
  · rfl

/-- C6 (amended): pass indices at or beyond `num_passes` encode section ids
at or beyond the section table, so such a batch entry makes the whole call
abort on the id-bounds assertion `sections[i].id < processed_section_.size()`
(the "Invalid section ID" branch after that assertion is unreachable);
whereas a batch of AC-group sections whose pass indices lie in
`[max_passes, num_passes)` is ignored silently: the call succeeds, every
status stays Skipped, and the state is unchanged (the done counter is
recomputed as 0). -/
theorem invalid_and_skipped_sections :
    (∀ (cfg : FrameConfig) (env : ExecEnv) (s : FrameState) (secs : List SectionInfo),
      ¬ (cfg.numGroups = 1 ∧ cfg.header.numPasses = 1) →
      1 ≤ cfg.numGroups →
      s.processedSection.length ≤
        cfg.numDcGroups + 2 + cfg.numGroups * cfg.header.numPasses →
      (∃ sec ∈ secs, cfg.numDcGroups + 1 < sec.id ∧
        cfg.header.numPasses ≤ (sec.id - (cfg.numDcGroups + 1) - 1) / cfg.numGroups) →
      (processSections cfg env s secs).err =
        some "JXL_ASSERT: section id out of bounds") ∧
    (∀ (cfg : FrameConfig) (env : ExecEnv) (s : FrameState) (secs : List SectionInfo),
      ¬ (cfg.numGroups = 1 ∧ cfg.header.numPasses = 1) →
      secs ≠ [] →
      (∀ sec ∈ secs,
        sec.id < s.processedSection.length ∧
        s.processedSection.getD sec.id false = false ∧
        cfg.numDcGroups + 1 < sec.id ∧
        s.maxPasses ≤ (sec.id - (cfg.numDcGroups + 1) - 1) / cfg.numGroups ∧
        (sec.id - (cfg.numDcGroups + 1) - 1) / cfg.numGroups < cfg.header.numPasses) →
      (s.decodedDcGroups.all (fun b => b) = true → s.finalizedDc = true) →
      processSections cfg env s secs =
        ⟨{s with numSectionsDone := 0},
          List.replicate secs.length SectionStatus.kSkipped, none⟩) := by
  constructor
  · intro cfg env s secs hns hG hlen hbad
    have hne : ¬ secs.length = 0 := by
      rcases hbad with ⟨sec, hmem, _⟩
      intro h0
      rw [List.length_eq_zero] at h0
      subst h0
      cases hmem
    unfold processSections
    rw [if_neg hne]
    dsimp only
    rw [if_neg hns]
    have hbad2 : ∃ sec ∈ secs,
        (cfg.numDcGroups + 1) + 1 + cfg.numGroups * cfg.header.numPasses ≤ sec.id := by
      rcases hbad with ⟨sec, hmem, hgt, hdiv⟩
      refine ⟨sec, hmem, ?_⟩
      have hmul : cfg.numGroups * cfg.header.numPasses ≤
          sec.id - (cfg.numDcGroups + 1) - 1 := by
        rw [Nat.mul_comm]
        exact (Nat.le_div_iff_mul_le hG).1 hdiv
      omega
    have herr := classifyMulti_err_eq cfg s secs
    rw [classifyGo_bad_id cfg.numGroups (cfg.numDcGroups + 1) s.maxPasses
      cfg.header.numPasses hG secs 0 (emptyClassify cfg s secs.length)
      hlen hbad2] at herr
    split
    · next e heq =>
      rw [heq] at herr
      simpa using herr
    · next heq =>
      rw [heq] at herr
      cases herr
  · intro cfg env s secs hns hne hsoft hfin
    have hlen0 : ¬ secs.length = 0 := by
      intro h0
      exact hne (List.length_eq_zero.1 h0)
    unfold processSections
    rw [if_neg hlen0]
    dsimp only
    rw [if_neg hns]
    have hgo := classifyGo_all_soft cfg.numGroups (cfg.numDcGroups + 1) s.maxPasses
      cfg.header.numPasses secs (emptyClassify cfg s secs.length)
      hsoft 0
    have hcm : classifyMulti cfg s secs =
        {emptyClassify cfg s secs.length with
          numAcPasses :=
            (List.range cfg.numGroups).map (fun g =>
              countFrom ((emptyClassify cfg s secs.length).acGroupSec.getD g [])
                secs.length (s.decodedPassesPerAcGroup.getD g 0)
                (s.maxPasses - s.decodedPassesPerAcGroup.getD g 0))} := by
      unfold classifyMulti
      dsimp only
      rw [hgo]
      rfl
    rw [hcm]
    refine Eq.trans (psDcGlobal_inert cfg env secs _ _ _ _ rfl rfl
      (fun j hj => List.eq_of_mem_replicate hj)
      (by
        intro n hn
        rcases List.mem_map.1 hn with ⟨g, hg, hgn⟩
        rw [List.mem_range] at hg
        rw [show (emptyClassify cfg s secs.length).acGroupSec.getD g [] =
            List.replicate cfg.header.numPasses secs.length from
          getD_replicate_self _ _ hg] at hgn
        rw [countFrom_replicate] at hgn
        exact hgn.symm)
      hfin) ?_
    unfold psMark
    dsimp only [emptyClassify]
    rw [markSectionsGo_skip_noop _ secs 0 s.processedSection secs.length
      (fun k => getD_replicate_all secs.length k SectionStatus.kSkipped)
      (fun sec hs => (hsoft sec hs).2.1)]
    dsimp only
    rw [Nat.sub_self]

theorem invalid_and_skipped_sections_witness :
    (processSections cfgMulti envAllOk (initialState cfgMulti)
        [⟨7, SecOutcome.ok⟩]).err = some "JXL_ASSERT: section id out of bounds" ∧
    processSections cfgMulti envAllOk {initialState cfgMulti with maxPasses := 1}
        [⟨5, SecOutcome.ok⟩] =
      ⟨{({initialState cfgMulti with maxPasses := 1} : FrameState) with
          numSectionsDone := 0},
        [SectionStatus.kSkipped], none⟩ :=
  ⟨invalid_and_skipped_sections.1 cfgMulti envAllOk (initialState cfgMulti)
      [⟨7, SecOutcome.ok⟩] (by decide) (by decide) (by decide)
      ⟨⟨7, SecOutcome.ok⟩, by decide, by decide, by decide⟩,
   invalid_and_skipped_sections.2 cfgMulti envAllOk
      {initialState cfgMulti with maxPasses := 1} [⟨5, SecOutcome.ok⟩]
      (by decide) (by decide)
      (by
        intro sec hs
        rcases List.mem_singleton.1 hs with rfl
        exact ⟨by decide, by decide, by decide, by decide, by decide⟩)
      (by decide)⟩

theorem getD_default {α : Type} {l : List α} {n : Nat} (d : α) (h : l.length ≤ n) :
    l.getD n d = d := by
  rw [List.getD, List.get?_eq_none.2 h]
  rfl

theorem getD_of_drop {α : Type} [Inhabited α] {l : List α} {i : Nat} {x : α}
    {t : List α} (h : l.drop i = x :: t) : l.getD i default = x := by
  have h3 := List.getElem?_drop l i 0
  rw [h] at h3
  simp only [Nat.add_zero] at h3
  have h4 : l[i]? = some x := by simpa using h3.symm
  simp [List.getD, h4]

theorem drop_succ_of_drop {α : Type} {l : List α} {i : Nat} {x : α} {t : List α}
    (h : l.drop i = x :: t) : l.drop (i + 1) = t := by
  have h2 := List.drop_drop 1 i l
  rw [h] at h2
  simp only [List.drop_succ_cons, List.drop_zero] at h2
  exact h2.symm

theorem lt_length_of_drop {α : Type} {l : List α} {i : Nat} {x : α} {t : List α}
    (h : l.drop i = x :: t) : i < l.length := by
  by_contra hc
  push_neg at hc
  rw [List.drop_eq_nil_of_le hc] at h
  cases h

theorem getD_set_elim {α : Type} (l : List α) (i j : Nat) (v d : α) :
    (l.set i v).getD j d = l.getD j d ∨
      (j = i ∧ i < l.length ∧ (l.set i v).getD j d = v) := by
  rcases eq_or_ne i j with rfl | hne
  · rcases Nat.lt_or_ge i l.length with hlt | hge
    · exact Or.inr ⟨rfl, hlt, getD_set_same v d hlt⟩
    · rw [List.set_eq_of_length_le hge]
      exact Or.inl rfl
  · exact Or.inl (getD_set_other v d hne)

theorem getD_mem_or {α : Type} (l : List α) (n : Nat) (d : α) :
    l.getD n d ∈ l ∨ l.getD n d = d := by
  rcases Nat.lt_or_ge n l.length with hlt | hge
  · left
    rw [List.getD, List.get?_eq_get hlt]
    exact List.get_mem l n hlt
  · right
    exact getD_default d hge

theorem statOK_mono_set_true {secsAll : List SectionInfo} {P : List Bool}
    {st : List SectionStatus} (id2 : Nat) (h : statOK secsAll P st) :
    statOK secsAll (P.set id2 true) st :=
  fun k hk => getD_set_true_mono (h k hk)

theorem regOK_mono_set_true {secsAll : List SectionInfo} {P : List Bool} {j : Nat}
    (id2 : Nat) (h : regOK secsAll P j) : regOK secsAll (P.set id2 true) j := by
  rcases h with h | ⟨hlt, htrue⟩
  · exact Or.inl h
  · exact Or.inr ⟨hlt, getD_set_true_mono htrue⟩

theorem statOK_set_done {secsAll : List SectionInfo} {P : List Bool}
    {st : List SectionStatus} {j : Nat}
    (h : statOK secsAll P st) (hlen : st.length = secsAll.length)
    (hj : regOK secsAll P j) :
    statOK secsAll P (st.set j SectionStatus.kDone) := by
  intro k hk
  rcases getD_set_elim st j k SectionStatus.kDone SectionStatus.kSkipped with
    hold | ⟨hkj, hlt, hval⟩
  · rw [hold] at hk
    exact h k hk
  · subst hkj
    rcases hj with hj | ⟨_, htrue⟩
    · omega
    · exact htrue

theorem statOK_set_part {secsAll : List SectionInfo} {P : List Bool}
    {st : List SectionStatus} {j : Nat} (h : statOK secsAll P st) :
    statOK secsAll P (st.set j SectionStatus.kPartial) := by
  intro k hk
  rcases getD_set_elim st j k SectionStatus.kPartial SectionStatus.kSkipped with
    hold | ⟨hkj, hlt, hval⟩
  · rw [hold] at hk
    exact h k hk
  · rw [hval] at hk
    rcases hk with hk | hk <;> cases hk

theorem statOK_set_dup {secsAll : List SectionInfo} {P : List Bool}
    {st : List SectionStatus} {i : Nat}
    (h : statOK secsAll P st)
    (hid : P.getD (secsAll.getD i default).id false = true) :
    statOK secsAll P (st.set i SectionStatus.kDuplicate) := by
  intro k hk
  rcases getD_set_elim st i k SectionStatus.kDuplicate SectionStatus.kSkipped with
    hold | ⟨hki, _, hval⟩
  · rw [hold] at hk
    exact h k hk
  · subst hki
    exact hid

theorem classifyGo_statOK (numGroups acGlobalIndex maxPasses numPassesHdr : Nat)
    (secsAll : List SectionInfo) :
    ∀ (rest : List SectionInfo) (i : Nat) (co : ClassifyOut),
      secsAll.drop i = rest →
      statOK secsAll co.processed co.status →
      statOK secsAll
        (classifyGo numGroups acGlobalIndex maxPasses numPassesHdr i rest co).processed
        (classifyGo numGroups acGlobalIndex maxPasses numPassesHdr i rest co).status := by
  intro rest
  induction rest with
  | nil => intro i co _ h; exact h
  | cons sec t ih =>
    intro i co hdrop h
    have hsec : secsAll.getD i default = sec := getD_of_drop hdrop
    have hdrop2 := drop_succ_of_drop hdrop
    unfold classifyGo
    dsimp only
    by_cases hin : sec.id < co.processed.length
    · rw [if_pos hin]
      by_cases hdup : co.processed.getD sec.id false = true
      · rw [if_pos hdup]
        exact ih (i + 1) _ hdrop2 (statOK_set_dup h (hsec ▸ hdup))
      · rw [if_neg hdup]
        by_cases h0 : sec.id = 0
        · rw [if_pos h0]
          exact ih (i + 1) _ hdrop2 (statOK_mono_set_true _ h)
        · rw [if_neg h0]
          by_cases hlow : sec.id < acGlobalIndex
          · rw [if_pos hlow]
            exact ih (i + 1) _ hdrop2 (statOK_mono_set_true _ h)
          · rw [if_neg hlow]
            by_cases hagi : sec.id = acGlobalIndex
            · rw [if_pos hagi]
              exact ih (i + 1) _ hdrop2 (statOK_mono_set_true _ h)
            · rw [if_neg hagi]
              by_cases hacp : numPassesHdr ≤ (sec.id - acGlobalIndex - 1) / numGroups
              · rw [if_pos hacp]
                exact h
              · rw [if_neg hacp]
                by_cases hmp : maxPasses ≤ (sec.id - acGlobalIndex - 1) / numGroups
                · rw [if_pos hmp]
                  exact ih (i + 1) _ hdrop2 h
                · rw [if_neg hmp]
                  exact ih (i + 1) _ hdrop2 (statOK_mono_set_true _ h)
    · rw [if_neg hin]
      exact h

theorem classifyGo_rolesOK (numGroups acGlobalIndex maxPasses numPassesHdr : Nat)
    (secsAll : List SectionInfo) :
    ∀ (rest : List SectionInfo) (i : Nat) (co : ClassifyOut),
      secsAll.drop i = rest →
      rolesOK secsAll co →
      rolesOK secsAll
        (classifyGo numGroups acGlobalIndex maxPasses numPassesHdr i rest co) := by
  intro rest
  induction rest with
  | nil => intro i co _ h; exact h
  | cons sec t ih =>
    intro i co hdrop h
    obtain ⟨hg, ha, hd, hac⟩ := h
    have hsec : secsAll.getD i default = sec := getD_of_drop hdrop
    have hilt : i < secsAll.length := lt_length_of_drop hdrop
    have hdrop2 := drop_succ_of_drop hdrop
    unfold classifyGo
    dsimp only
    by_cases hin : sec.id < co.processed.length
    · rw [if_pos hin]
      have hregi : regOK secsAll (co.processed.set sec.id true) i := by
        refine Or.inr ⟨hilt, ?_⟩
        rw [hsec]
        exact getD_set_same true false hin
      by_cases hdup : co.processed.getD sec.id false = true
      · rw [if_pos hdup]
        exact ih (i + 1) _ hdrop2 ⟨hg, ha, hd, hac⟩
      · rw [if_neg hdup]
        by_cases h0 : sec.id = 0
        · rw [if_pos h0]
          exact ih (i + 1) _ hdrop2
            ⟨hregi, regOK_mono_set_true _ ha,
             fun j hj => regOK_mono_set_true _ (hd j hj),
             fun row hrow j hj => regOK_mono_set_true _ (hac row hrow j hj)⟩
        · rw [if_neg h0]
          by_cases hlow : sec.id < acGlobalIndex
          · rw [if_pos hlow]
            refine ih (i + 1) _ hdrop2
              ⟨regOK_mono_set_true _ hg, regOK_mono_set_true _ ha, ?_,
               fun row hrow j hj => regOK_mono_set_true _ (hac row hrow j hj)⟩
            intro j hj
            rcases List.mem_or_eq_of_mem_set hj with hj2 | hj2
            · exact regOK_mono_set_true _ (hd j hj2)
            · subst hj2
              exact hregi
          · rw [if_neg hlow]
            by_cases hagi : sec.id = acGlobalIndex
            · rw [if_pos hagi]
              exact ih (i + 1) _ hdrop2
                ⟨regOK_mono_set_true _ hg, hregi,
                 fun j hj => regOK_mono_set_true _ (hd j hj),
                 fun row hrow j hj => regOK_mono_set_true _ (hac row hrow j hj)⟩
            · rw [if_neg hagi]
              by_cases hacp : numPassesHdr ≤ (sec.id - acGlobalIndex - 1) / numGroups
              · rw [if_pos hacp]
                exact ⟨hg, ha, hd, hac⟩
              · rw [if_neg hacp]
                by_cases hmp : maxPasses ≤ (sec.id - acGlobalIndex - 1) / numGroups
                · rw [if_pos hmp]
                  exact ih (i + 1) _ hdrop2 ⟨hg, ha, hd, hac⟩
                · rw [if_neg hmp]
                  refine ih (i + 1) _ hdrop2
                    ⟨regOK_mono_set_true _ hg, regOK_mono_set_true _ ha,
                     fun j hj => regOK_mono_set_true _ (hd j hj), ?_⟩
                  intro row hrow j hj
                  rcases List.mem_or_eq_of_mem_set hrow with hrow2 | hrow2
                  · exact regOK_mono_set_true _ (hac row hrow2 j hj)
                  · subst hrow2
                    rcases List.mem_or_eq_of_mem_set hj with hj2 | hj2
                    · rcases getD_mem_or co.acGroupSec
                          ((sec.id - acGlobalIndex - 1) % numGroups) [] with hrow3 | hrow3
                      · exact regOK_mono_set_true _ (hac _ hrow3 j hj2)
                      · rw [hrow3] at hj2
                        cases hj2
                    · subst hj2
                      exact hregi
    · rw [if_neg hin]
      exact ⟨hg, ha, hd, hac⟩

theorem classifyGo_status_length (numGroups acGlobalIndex maxPasses numPassesHdr : Nat) :
    ∀ (rest : List SectionInfo) (i : Nat) (co : ClassifyOut),
      (classifyGo numGroups acGlobalIndex maxPasses numPassesHdr i rest co).status.length =
        co.status.length := by
  intro rest
  induction rest with
  | nil => intro i co; rfl
  | cons sec t ih =>
    intro i co
    unfold classifyGo
    dsimp only
    repeat' split
    all_goals first | rfl | simp [ih]

theorem statOK_foldl_done {secsAll : List SectionInfo} {P : List Bool} :
    ∀ (idxs : List Nat) (st : List SectionStatus),
      statOK secsAll P st → st.length = secsAll.length →
      (∀ j ∈ idxs, regOK secsAll P j) →
      statOK secsAll P (idxs.foldl (fun acc j => acc.set j SectionStatus.kDone) st) ∧
      (idxs.foldl (fun acc j => acc.set j SectionStatus.kDone) st).length =
        secsAll.length := by
  intro idxs
  induction idxs with
  | nil => intro st h hlen _; exact ⟨h, hlen⟩
  | cons j rest ih =>
    intro st h hlen hr
    simp only [List.foldl_cons]
    exact ih _ (statOK_set_done h hlen (hr j (List.mem_cons_self j rest)))
      (by rw [List.length_set]; exact hlen)
      (fun j2 hj2 => hr j2 (List.mem_cons_of_mem j hj2))

theorem dcPool_statOK {secsAll : List SectionInfo} {P : List Bool} :
    ∀ (l : List Nat) (g : Nat) (groups : List Bool) (st : List SectionStatus) (he : Bool),
      statOK secsAll P st → st.length = secsAll.length →
      (∀ j ∈ l, regOK secsAll P j) →
      statOK secsAll P (dcPool secsAll secsAll.length l g groups st he).2.1 ∧
      (dcPool secsAll secsAll.length l g groups st he).2.1.length = secsAll.length := by
  intro l
  induction l with
  | nil => intro g groups st he h hlen _; exact ⟨h, hlen⟩
  | cons x xs ih =>
    intro g groups st he h hlen hr
    unfold dcPool
    split
    · exact ih _ _ _ _ h hlen (fun j hj => hr j (List.mem_cons_of_mem x hj))
    · split
      · exact ih _ _ _ _ (statOK_set_done h hlen (hr x (List.mem_cons_self x xs)))
          (by rw [List.length_set]; exact hlen)
          (fun j hj => hr j (List.mem_cons_of_mem x hj))
      · exact ih _ _ _ _ h hlen (fun j hj => hr j (List.mem_cons_of_mem x hj))

theorem acPool_statOK {secsAll : List SectionInfo} {P : List Bool} :
    ∀ (rows : List (List Nat)) (ns : List Nat) (g : Nat) (passes : List Nat)
      (st : List SectionStatus) (he : Bool),
      statOK secsAll P st → st.length = secsAll.length →
      (∀ row ∈ rows, ∀ j ∈ row, regOK secsAll P j) →
      statOK secsAll P (acPool secsAll secsAll.length rows ns g passes st he).2.1 ∧
      (acPool secsAll secsAll.length rows ns g passes st he).2.1.length =
        secsAll.length := by
  intro rows
  induction rows with
  | nil => intro ns g passes st he h hlen _; exact ⟨h, hlen⟩
  | cons row rows2 ih =>
    intro ns g passes st he h hlen hr
    cases ns with
    | nil => exact ⟨h, hlen⟩
    | cons n ns2 =>
      unfold acPool
      dsimp only
      split
      · exact ih _ _ _ _ _ h hlen (fun r hr2 => hr r (List.mem_cons_of_mem row hr2))
      · split
        · have hreg : ∀ j ∈ (List.range n).map
              (fun j => row.getD (passes.getD g 0 + j) secsAll.length),
              regOK secsAll P j := by
            intro j hj
            rcases List.mem_map.1 hj with ⟨k, _, hk⟩
            rcases getD_mem_or row (passes.getD g 0 + k) secsAll.length with hm | hm
            · rw [← hk]
              exact hr row (List.mem_cons_self row rows2) _ hm
            · rw [← hk, hm]
              exact Or.inl rfl
          have hf := statOK_foldl_done _ _ h hlen hreg
          exact ih _ _ _ _ _ hf.1 hf.2
            (fun r hr2 => hr r (List.mem_cons_of_mem row hr2))
        · exact ih _ _ _ _ _ h hlen (fun r hr2 => hr r (List.mem_cons_of_mem row hr2))

theorem psMark_post (secs : List SectionInfo) (s : FrameState)
    (st : List SectionStatus) (P : List Bool)
    (hstat : statOK secs P st) (hlen : st.length = secs.length)
    (hfin : s.decodedDcGroups.all (fun b => b) = true → s.finalizedDc = true)
    (hproc : s.processedSection = P) :
    statOK secs P (psMark secs s st).status ∧
    (psMark secs s st).status.length = secs.length ∧
    ((psMark secs s st).state.decodedDcGroups.all (fun b => b) = true →
      (psMark secs s st).state.finalizedDc = true) ∧
    (psMark secs s st).state.processedSection =
      (markSectionsGo (psMark secs s st).status secs 0 P secs.length).1 ∧
    (psMark secs s st).state.numSectionsDone =
      (markSectionsGo (psMark secs s st).status secs 0 P secs.length).2 := by
  refine ⟨hstat, hlen, hfin, ?_, ?_⟩
  · show (markSectionsGo st secs 0 s.processedSection secs.length).1 = _
    rw [hproc]
    rfl
  · show (markSectionsGo st secs 0 s.processedSection secs.length).2 = _
    rw [hproc]
    rfl

theorem psAcPool_post (secs : List SectionInfo) (co : ClassifyOut) (s : FrameState)
    (st : List SectionStatus)
    (hroles : rolesOK secs co)
    (hstat : statOK secs co.processed st) (hlen : st.length = secs.length)
    (hfin : s.decodedDcGroups.all (fun b => b) = true → s.finalizedDc = true)
    (hproc : s.processedSection = co.processed)
    (herr : (psAcPool secs co s st).err = none) :
    statOK secs co.processed (psAcPool secs co s st).status ∧
    (psAcPool secs co s st).status.length = secs.length ∧
    ((psAcPool secs co s st).state.decodedDcGroups.all (fun b => b) = true →
      (psAcPool secs co s st).state.finalizedDc = true) ∧
    (psAcPool secs co s st).state.processedSection =
      (markSectionsGo (psAcPool secs co s st).status secs 0 co.processed secs.length).1 ∧
    (psAcPool secs co s st).state.numSectionsDone =
      (markSectionsGo (psAcPool secs co s st).status secs 0 co.processed secs.length).2 := by
  by_cases hag : s.decodedAcGlobal = true
  · have hred : psAcPool secs co s st =
        (if (acPool secs secs.length co.acGroupSec co.numAcPasses 0
            s.decodedPassesPerAcGroup st false).2.2 then
          ⟨{s with decodedPassesPerAcGroup :=
              (acPool secs secs.length co.acGroupSec co.numAcPasses 0
                s.decodedPassesPerAcGroup st false).1},
            (acPool secs secs.length co.acGroupSec co.numAcPasses 0
              s.decodedPassesPerAcGroup st false).2.1, some "Error in AC group"⟩
        else psMark secs
          {s with decodedPassesPerAcGroup :=
            (acPool secs secs.length co.acGroupSec co.numAcPasses 0
              s.decodedPassesPerAcGroup st false).1}
          (acPool secs secs.length co.acGroupSec co.numAcPasses 0
            s.decodedPassesPerAcGroup st false).2.1) := by
      unfold psAcPool
      rw [if_pos hag]
    have hpool := @acPool_statOK secs co.processed co.acGroupSec co.numAcPasses 0
      s.decodedPassesPerAcGroup st false hstat hlen hroles.2.2.2
    rcases hA : acPool secs secs.length co.acGroupSec co.numAcPasses 0
        s.decodedPassesPerAcGroup st false with ⟨p2, st2, he2⟩
    rw [hA] at hred hpool
    cases he2 with
    | true =>
      rw [hred] at herr
      cases herr
    | false =>
      simp only at hred hpool
      rw [hred]
      exact psMark_post secs _ st2 co.processed hpool.1 hpool.2 hfin hproc
  · have hred : psAcPool secs co s st = psMark secs s st := by
      unfold psAcPool
      rw [if_neg hag]
    rw [hred]
    exact psMark_post secs s st co.processed hstat hlen hfin hproc

theorem psAcGlobal_post (secs : List SectionInfo) (co : ClassifyOut) (s : FrameState)
    (st : List SectionStatus)
    (hroles : rolesOK secs co)
    (hstat : statOK secs co.processed st) (hlen : st.length = secs.length)
    (hfin : s.decodedDcGroups.all (fun b => b) = true → s.finalizedDc = true)
    (hproc : s.processedSection = co.processed)
    (herr : (psAcGlobal secs co s st).err = none) :
    statOK secs co.processed (psAcGlobal secs co s st).status ∧
    (psAcGlobal secs co s st).status.length = secs.length ∧
    ((psAcGlobal secs co s st).state.decodedDcGroups.all (fun b => b) = true →
      (psAcGlobal secs co s st).state.finalizedDc = true) ∧
    (psAcGlobal secs co s st).state.processedSection =
      (markSectionsGo (psAcGlobal secs co s st).status secs 0 co.processed secs.length).1 ∧
    (psAcGlobal secs co s st).state.numSectionsDone =
      (markSectionsGo (psAcGlobal secs co s st).status secs 0 co.processed secs.length).2 := by
  by_cases hcond : s.finalizedDc = true ∧ co.acGlobalSec ≠ secs.length ∧
      ¬ s.decodedAcGlobal = true
  · cases ho : (secs.getD co.acGlobalSec default).outcome with
    | ok =>
      have hred : psAcGlobal secs co s st =
          psAcPool secs co {s with decodedAcGlobal := true}
            (st.set co.acGlobalSec SectionStatus.kDone) := by
        unfold psAcGlobal
        rw [if_pos hcond, ho]
      rw [hred] at herr ⊢
      exact psAcPool_post secs co _ _ hroles
        (statOK_set_done hstat hlen hroles.2.1)
        (by rw [List.length_set]; exact hlen) hfin hproc herr
    | nonFatal =>
      have hred : psAcGlobal secs co s st =
          ⟨s, st, some "Error in AC global section"⟩ := by
        unfold psAcGlobal
        rw [if_pos hcond, ho]
      rw [hred] at herr
      cases herr
    | fatal =>
      have hred : psAcGlobal secs co s st =
          ⟨s, st, some "Error in AC global section"⟩ := by
        unfold psAcGlobal
        rw [if_pos hcond, ho]
      rw [hred] at herr
      cases herr
  · have hred : psAcGlobal secs co s st = psAcPool secs co s st := by
      unfold psAcGlobal
      rw [if_neg hcond]
    rw [hred] at herr ⊢
    exact psAcPool_post secs co s st hroles hstat hlen hfin hproc herr

theorem psFinalize_post (cfg : FrameConfig) (env : ExecEnv) (secs : List SectionInfo)
    (co : ClassifyOut) (single : Bool) (s : FrameState) (st : List SectionStatus)
    (hroles : rolesOK secs co)
    (hstat : statOK secs co.processed st) (hlen : st.length = secs.length)
    (hproc : s.processedSection = co.processed)
    (herr : (psFinalize cfg env secs co single s st).err = none) :
    statOK secs co.processed (psFinalize cfg env secs co single s st).status ∧
    (psFinalize cfg env secs co single s st).status.length = secs.length ∧
    ((psFinalize cfg env secs co single s st).state.decodedDcGroups.all
        (fun b => b) = true →
      (psFinalize cfg env secs co single s st).state.finalizedDc = true) ∧
    (psFinalize cfg env secs co single s st).state.processedSection =
      (markSectionsGo (psFinalize cfg env secs co single s st).status secs 0
        co.processed secs.length).1 ∧
    (psFinalize cfg env secs co single s st).state.numSectionsDone =
      (markSectionsGo (psFinalize cfg env secs co single s st).status secs 0
        co.processed secs.length).2 := by
  by_cases hc : s.decodedDcGroups.all (fun b => b) = true ∧ ¬ s.finalizedDc = true
  · by_cases hprep : env.preparePipelineOk = true
    · have hred : psFinalize cfg env secs co single s st =
          (match allocateOutput env {s with finalizedDc := true} with
          | (s2, some e) => ⟨s2, st, some e⟩
          | (s2, none) =>
            if cfg.pauseAtProgressive = true ∧ ¬ single = true then
              if ¬ cfg.hasExtraChannels = true ∧
                  cfg.header.encoding = FrameEncoding.kVarDCT then
                psMark secs s2 st
              else psAcGlobal secs co s2 st
            else psAcGlobal secs co s2 st) := by
        unfold psFinalize
        rw [if_pos hc, if_pos hprep]
      have hkept := allocateOutput_fieldsKept env {s with finalizedDc := true}
      rcases hA : allocateOutput env {s with finalizedDc := true} with ⟨s2, e2⟩
      rw [hA] at hred hkept
      simp only at hkept
      cases e2 with
      | some e =>
        rw [hred] at herr
        cases herr
      | none =>
        simp only at hred
        have hfin2 : s2.decodedDcGroups.all (fun b => b) = true →
            s2.finalizedDc = true := fun _ => hkept.2.2.1
        have hproc2 : s2.processedSection = co.processed := by
          rw [hkept.2.2.2.2.2.1]
          exact hproc
        by_cases hpa : cfg.pauseAtProgressive = true ∧ ¬ single = true
        · by_cases hcr : ¬ cfg.hasExtraChannels = true ∧
              cfg.header.encoding = FrameEncoding.kVarDCT
          · rw [hred, if_pos hpa, if_pos hcr] at herr ⊢
            exact psMark_post secs s2 st co.processed hstat hlen hfin2 hproc2
          · rw [hred, if_pos hpa, if_neg hcr] at herr ⊢
            exact psAcGlobal_post secs co s2 st hroles hstat hlen hfin2 hproc2 herr
        · rw [hred, if_neg hpa] at herr ⊢
          exact psAcGlobal_post secs co s2 st hroles hstat hlen hfin2 hproc2 herr
    · have hred : psFinalize cfg env secs co single s st =
          ⟨s, st, some "PreparePipeline failed"⟩ := by
        unfold psFinalize
        rw [if_pos hc, if_neg hprep]
      rw [hred] at herr
      cases herr
  · have hfin : s.decodedDcGroups.all (fun b => b) = true → s.finalizedDc = true := by
      by_cases hfd : s.finalizedDc = true
      · exact fun _ => hfd
      · intro hall
        exact absurd ⟨hall, hfd⟩ hc
    have hred : psFinalize cfg env secs co single s st = psAcGlobal secs co s st := by
      unfold psFinalize
      rw [if_neg hc]
    rw [hred] at herr ⊢
    exact psAcGlobal_post secs co s st hroles hstat hlen hfin hproc herr

theorem psDcPool_post (cfg : FrameConfig) (env : ExecEnv) (secs : List SectionInfo)
    (co : ClassifyOut) (single : Bool) (s : FrameState) (st : List SectionStatus)
    (hroles : rolesOK secs co)
    (hstat : statOK secs co.processed st) (hlen : st.length = secs.length)
    (hproc : s.processedSection = co.processed)
    (herr : (psDcPool cfg env secs co single s st).err = none) :
    statOK secs co.processed (psDcPool cfg env secs co single s st).status ∧
    (psDcPool cfg env secs co single s st).status.length = secs.length ∧
    ((psDcPool cfg env secs co single s st).state.decodedDcGroups.all
        (fun b => b) = true →
      (psDcPool cfg env secs co single s st).state.finalizedDc = true) ∧
    (psDcPool cfg env secs co single s st).state.processedSection =
      (markSectionsGo (psDcPool cfg env secs co single s st).status secs 0
        co.processed secs.length).1 ∧
    (psDcPool cfg env secs co single s st).state.numSectionsDone =
      (markSectionsGo (psDcPool cfg env secs co single s st).status secs 0
        co.processed secs.length).2 := by
  by_cases hg : s.decodedDcGlobal = true
  · have hred : psDcPool cfg env secs co single s st =
        (if (dcPool secs secs.length co.dcGroupSec 0 s.decodedDcGroups st false).2.2 then
          ⟨{s with decodedDcGroups :=
              (dcPool secs secs.length co.dcGroupSec 0 s.decodedDcGroups st false).1},
            (dcPool secs secs.length co.dcGroupSec 0 s.decodedDcGroups st false).2.1,
            some "Error in DC group"⟩
        else psFinalize cfg env secs co single
          {s with decodedDcGroups :=
            (dcPool secs secs.length co.dcGroupSec 0 s.decodedDcGroups st false).1}
          (dcPool secs secs.length co.dcGroupSec 0 s.decodedDcGroups st false).2.1) := by
      unfold psDcPool
      rw [if_pos hg]
    have hpool := @dcPool_statOK secs co.processed co.dcGroupSec 0 s.decodedDcGroups
      st false hstat hlen hroles.2.2.1
    rcases hA : dcPool secs secs.length co.dcGroupSec 0 s.decodedDcGroups st false with
      ⟨g2, st2, he2⟩
    rw [hA] at hred hpool
    cases he2 with
    | true =>
      rw [hred] at herr
      cases herr
    | false =>
      simp only at hred hpool
      rw [hred] at herr ⊢
      exact psFinalize_post cfg env secs co single _ st2 hroles hpool.1 hpool.2
        hproc herr
  · have hred : psDcPool cfg env secs co single s st =
        psFinalize cfg env secs co single s st := by
      unfold psDcPool
      rw [if_neg hg]
      rfl
    rw [hred] at herr ⊢
    exact psFinalize_post cfg env secs co single s st hroles hstat hlen hproc herr

theorem psDcGlobal_post (cfg : FrameConfig) (env : ExecEnv) (secs : List SectionInfo)
    (co : ClassifyOut) (single : Bool) (s : FrameState) (st : List SectionStatus)
    (hroles : rolesOK secs co)
    (hstat : statOK secs co.processed st) (hlen : st.length = secs.length)
    (hproc : s.processedSection = co.processed)
    (herr : (psDcGlobal cfg env secs co single s st).err = none) :
    statOK secs co.processed (psDcGlobal cfg env secs co single s st).status ∧
    (psDcGlobal cfg env secs co single s st).status.length = secs.length ∧
    ((psDcGlobal cfg env secs co single s st).state.decodedDcGroups.all
        (fun b => b) = true →
      (psDcGlobal cfg env secs co single s st).state.finalizedDc = true) ∧
    (psDcGlobal cfg env secs co single s st).state.processedSection =
      (markSectionsGo (psDcGlobal cfg env secs co single s st).status secs 0
        co.processed secs.length).1 ∧
    (psDcGlobal cfg env secs co single s st).state.numSectionsDone =
      (markSectionsGo (psDcGlobal cfg env secs co single s st).status secs 0
        co.processed secs.length).2 := by
  by_cases hgs : co.dcGlobalSec ≠ secs.length
  · cases ho : (secs.getD co.dcGlobalSec default).outcome with
    | ok =>
      have hred : psDcGlobal cfg env secs co single s st =
          psDcPool cfg env secs co single {s with decodedDcGlobal := true}
            (st.set co.dcGlobalSec SectionStatus.kDone) := by
        unfold psDcGlobal
        rw [if_pos hgs, ho]
      rw [hred] at herr ⊢
      exact psDcPool_post cfg env secs co single _ _ hroles
        (statOK_set_done hstat hlen hroles.1)
        (by rw [List.length_set]; exact hlen) hproc herr
    | nonFatal =>
      have hred : psDcGlobal cfg env secs co single s st =
          psDcPool cfg env secs co single s
            (st.set co.dcGlobalSec SectionStatus.kPartial) := by
        unfold psDcGlobal
        rw [if_pos hgs, ho]
      rw [hred] at herr ⊢
      exact psDcPool_post cfg env secs co single s _ hroles
        (statOK_set_part hstat)
        (by rw [List.length_set]; exact hlen) hproc herr
    | fatal =>
      have hred : psDcGlobal cfg env secs co single s st =
          ⟨s, st, some "Error in DC global section"⟩ := by
        unfold psDcGlobal
        rw [if_pos hgs, ho]
      rw [hred] at herr
      cases herr
  · have hred : psDcGlobal cfg env secs co single s st =
        psDcPool cfg env secs co single s st := by
      unfold psDcGlobal
      rw [if_neg hgs]
    rw [hred] at herr ⊢
    exact psDcPool_post cfg env secs co single s st hroles hstat hlen hproc herr

theorem markSectionsGo_no_clear (st : List SectionStatus) :
    ∀ (secs2 : List SectionInfo) (i : Nat) (p : List Bool) (d : Nat),
      (∀ k, i ≤ k → k < i + secs2.length →
        ¬(st.getD k SectionStatus.kSkipped = SectionStatus.kSkipped ∨
          st.getD k SectionStatus.kSkipped = SectionStatus.kPartial)) →
      markSectionsGo st secs2 i p d = (p, d) := by
  intro secs2
  induction secs2 with
  | nil => intro i p d _; rfl
  | cons sec rest ih =>
    intro i p d h
    unfold markSectionsGo
    dsimp only
    rw [if_neg (h i (Nat.le_refl i) (by rw [List.length_cons]; omega))]
    exact ih (i + 1) p d (fun k h1 h2 => h k (by omega)
      (by rw [List.length_cons]; omega))

theorem eq_replicate_of_getD {α : Type} {l : List α} {n : Nat} {a : α} (d : α)
    (hlen : l.length = n) (h : ∀ j, j < n → l.getD j d = a) :
    l = List.replicate n a := by
  apply List.ext_getElem?
  intro k
  rcases Nat.lt_or_ge k n with hlt | hge
  · have hkl : k < l.length := by omega
    rw [List.getElem?_eq_getElem hkl, List.getElem?_replicate, if_pos hlt]
    have hk := h k hlt
    rw [List.getD, List.get?_eq_get hkl] at hk
    simp only [Option.getD_some] at hk
    simp only [List.get_eq_getElem] at hk
    rw [hk]
  · rw [List.getElem?_eq_none (by omega), List.getElem?_replicate, if_neg (by omega)]

theorem state_eta_done (s : FrameState) (n : Nat) (h : s.numSectionsDone = n) :
    ({s with processedSection := s.processedSection, numSectionsDone := n} :
      FrameState) = s := by
  subst h
  cases s
  rfl

theorem emptyClassify_rolesOK (cfg : FrameConfig) (s : FrameState)
    (secs : List SectionInfo) :
    rolesOK secs (emptyClassify cfg s secs.length) := by
  refine ⟨Or.inl rfl, Or.inl rfl, ?_, ?_⟩
  · intro j hj
    exact Or.inl (List.eq_of_mem_replicate hj)
  · intro row hrow j hj
    have hr := List.eq_of_mem_replicate hrow
    subst hr
    exact Or.inl (List.eq_of_mem_replicate hj)

theorem emptyClassify_statOK (cfg : FrameConfig) (s : FrameState)
    (secs : List SectionInfo) :
    statOK secs (emptyClassify cfg s secs.length).processed
      (emptyClassify cfg s secs.length).status := by
  intro k hk
  dsimp only [emptyClassify] at hk
  rw [getD_replicate_all] at hk
  rcases hk with hk | hk <;> cases hk

theorem classifyMulti_facts (cfg : FrameConfig) (s : FrameState)
    (secs : List SectionInfo) :
    rolesOK secs (classifyMulti cfg s secs) ∧
    statOK secs (classifyMulti cfg s secs).processed
      (classifyMulti cfg s secs).status ∧
    (classifyMulti cfg s secs).status.length = secs.length := by
  have hroles := classifyGo_rolesOK cfg.numGroups (cfg.numDcGroups + 1) s.maxPasses
    cfg.header.numPasses secs secs 0 (emptyClassify cfg s secs.length)
    (List.drop_zero secs) (emptyClassify_rolesOK cfg s secs)
  have hstat := classifyGo_statOK cfg.numGroups (cfg.numDcGroups + 1) s.maxPasses
    cfg.header.numPasses secs secs 0 (emptyClassify cfg s secs.length)
    (List.drop_zero secs) (emptyClassify_statOK cfg s secs)
  have hlen := classifyGo_status_length cfg.numGroups (cfg.numDcGroups + 1) s.maxPasses
    cfg.header.numPasses secs 0 (emptyClassify cfg s secs.length)
  have hlen2 : (classifyGo cfg.numGroups (cfg.numDcGroups + 1) s.maxPasses
      cfg.header.numPasses 0 secs (emptyClassify cfg s secs.length)).status.length =
      secs.length := by
    rw [hlen]
    exact List.length_replicate secs.length SectionStatus.kSkipped
  unfold classifyMulti
  dsimp only
  split
  · exact ⟨hroles, hstat, hlen2⟩
  · exact ⟨hroles, hstat, hlen2⟩

theorem classifySingle_facts (cfg : FrameConfig) (s : FrameState)
    (secs : List SectionInfo)
    (hlen1 : 1 ≤ s.processedSection.length)
    (herr : (classifySingle cfg s secs).err = none) :
    secs.length = 1 ∧ (secs.getD 0 default).id = 0 ∧
    rolesOK secs (classifySingle cfg s secs) ∧
    statOK secs (classifySingle cfg s secs).processed
      (classifySingle cfg s secs).status ∧
    (classifySingle cfg s secs).status.length = secs.length := by
  unfold classifySingle at herr ⊢
  dsimp only at herr ⊢
  by_cases h1 : secs.length = 1
  · rw [if_pos h1] at herr ⊢
    by_cases h2 : (secs.getD 0 default).id = 0
    · rw [if_pos h2] at herr ⊢
      by_cases h3 : s.processedSection.getD 0 false = true
      · rw [if_pos h3] at herr ⊢
        refine ⟨h1, h2, ?_, ?_, ?_⟩
        · refine ⟨Or.inl rfl, Or.inl rfl, ?_, ?_⟩
          · intro j hj
            exact Or.inl (List.eq_of_mem_replicate hj)
          · intro row hrow j hj
            have hr := List.eq_of_mem_replicate hrow
            subst hr
            exact Or.inl (List.eq_of_mem_replicate hj)
        · apply statOK_set_dup
          · intro k hk
            dsimp only [emptyClassify] at hk
            rw [getD_replicate_all] at hk
            rcases hk with hk | hk <;> cases hk
          · rw [h2]
            exact h3
        · rw [List.length_set]
          exact List.length_replicate secs.length SectionStatus.kSkipped
      · rw [if_neg h3] at herr ⊢
        have hreg0 : regOK secs (s.processedSection.set 0 true) 0 := by
          refine Or.inr ⟨by omega, ?_⟩
          rw [h2]
          exact getD_set_same true false hlen1
        refine ⟨h1, h2, ?_, ?_, ?_⟩
        · refine ⟨hreg0, hreg0, ?_, ?_⟩
          · intro j hj
            rcases List.mem_or_eq_of_mem_set hj with hj2 | hj2
            · exact Or.inl (List.eq_of_mem_replicate hj2)
            · subst hj2
              exact hreg0
          · intro row hrow j hj
            rcases List.mem_or_eq_of_mem_set hrow with hrow2 | hrow2
            · have hr := List.eq_of_mem_replicate hrow2
              subst hr
              exact Or.inl (List.eq_of_mem_replicate hj)
            · subst hrow2
              rcases List.mem_singleton.1 hj with rfl
              exact hreg0
        · intro k hk
          dsimp only [emptyClassify] at hk
          rw [getD_replicate_all] at hk
          rcases hk with hk | hk <;> cases hk
        · exact List.length_replicate secs.length SectionStatus.kSkipped
    · rw [if_neg h2] at herr
      cases herr
  · rw [if_neg h1] at herr
    cases herr

theorem classifyGo_all_dup (numGroups acGlobalIndex maxPasses numPassesHdr : Nat) :
    ∀ (rest : List SectionInfo) (i : Nat) (co : ClassifyOut),
      (∀ sec ∈ rest, co.processed.getD sec.id false = true) →
      i + rest.length ≤ co.status.length →
      ∃ st2 : List SectionStatus,
        classifyGo numGroups acGlobalIndex maxPasses numPassesHdr i rest co =
          {co with status := st2} ∧
        st2.length = co.status.length ∧
        (∀ j, st2.getD j SectionStatus.kSkipped =
          if i ≤ j ∧ j < i + rest.length then SectionStatus.kDuplicate
          else co.status.getD j SectionStatus.kSkipped) := by
  intro rest
  induction rest with
  | nil =>
    intro i co _ _
    refine ⟨co.status, rfl, rfl, ?_⟩
    intro j
    rw [if_neg (by simp)]
  | cons sec t ih =>
    intro i co hdup hlen
    have hd := hdup sec (List.mem_cons_self sec t)
    have hin : sec.id < co.processed.length := getD_true_lt hd
    rw [List.length_cons] at hlen
    unfold classifyGo
    dsimp only
    rw [if_pos hin, if_pos hd]
    obtain ⟨st2, hEq, hLen, hChar⟩ :=
      ih (i + 1) {co with status := co.status.set i SectionStatus.kDuplicate}
        (fun s2 hs2 => hdup s2 (List.mem_cons_of_mem sec hs2))
        (by dsimp only; rw [List.length_set]; omega)
    refine ⟨st2, hEq, ?_, ?_⟩
    · rw [hLen]
      dsimp only
      rw [List.length_set]
    · intro j
      rw [hChar j]
      dsimp only
      rw [List.length_cons]
      by_cases hj : i + 1 ≤ j ∧ j < i + 1 + t.length
      · rw [if_pos hj, if_pos (by omega)]
      · rw [if_neg hj]
        by_cases hji : j = i
        · subst hji
          rw [getD_set_same SectionStatus.kDuplicate SectionStatus.kSkipped (by omega)]
          rw [if_pos (by omega)]
        · rw [getD_set_other SectionStatus.kDuplicate SectionStatus.kSkipped
            (fun hh => hji hh.symm)]
          rw [if_neg (by omega)]

/-- When every section of the batch is already registered in
`processed_section_`, DC cannot be freshly finalised, and the done counter
already counts the whole batch, a reprocessing call marks every entry
Duplicate and leaves the state unchanged. -/
theorem processSections_all_dup (cfg : FrameConfig) (env : ExecEnv) (s : FrameState)
    (secs : List SectionInfo)
    (hne : ¬ secs.length = 0)
    (hproc : ∀ sec ∈ secs, s.processedSection.getD sec.id false = true)
    (hfin : s.decodedDcGroups.all (fun b => b) = true → s.finalizedDc = true)
    (hdone : s.numSectionsDone = secs.length)
    (hsing : (cfg.numGroups = 1 ∧ cfg.header.numPasses = 1) →
      secs.length = 1 ∧ (secs.getD 0 default).id = 0) :
    processSections cfg env s secs =
      ⟨s, List.replicate secs.length SectionStatus.kDuplicate, none⟩ := by
  unfold processSections
  rw [if_neg hne]
  dsimp only
  by_cases hs : cfg.numGroups = 1 ∧ cfg.header.numPasses = 1
  · rw [if_pos hs]
    obtain ⟨hn1, hid0⟩ := hsing hs
    rcases secs with _ | ⟨x, t⟩
    · exact absurd rfl hne
    · have ht : t = [] := List.length_eq_zero.1
        (by rw [List.length_cons] at hn1; omega)
      subst ht
      have hid0x : x.id = 0 := hid0
      have hp0 : s.processedSection.getD 0 false = true := by
        rw [← hid0x]
        exact hproc x (List.mem_cons_self x [])
      have hcs : classifySingle cfg s [x] =
          {emptyClassify cfg s 1 with
            status := (emptyClassify cfg s 1).status.set 0 SectionStatus.kDuplicate} := by
        unfold classifySingle
        dsimp only
        rw [if_pos (show ([x] : List SectionInfo).length = 1 from rfl),
          if_pos (show (([x] : List SectionInfo).getD 0 default).id = 0 from hid0x),
          if_pos hp0]
        rfl
      rw [hcs]
      refine Eq.trans (psDcGlobal_inert cfg env [x] _ _ _ _ rfl rfl
        (fun j hj => List.eq_of_mem_replicate hj)
        (fun n hn => List.eq_of_mem_replicate hn)
        hfin) ?_
      unfold psMark
      dsimp only [emptyClassify]
      rw [markSectionsGo_no_clear _ [x] 0 s.processedSection
        ([x] : List SectionInfo).length
        (by
          intro k _ hk
          have hk0 : k = 0 := by
            simp only [List.length_cons, List.length_nil] at hk
            omega
          subst hk0
          decide)]
      dsimp only
      exact congrArg (fun z => PSRes.mk z
        (List.replicate ([x] : List SectionInfo).length SectionStatus.kDuplicate)
        none) (state_eta_done s ([x] : List SectionInfo).length hdone)
  · rw [if_neg hs]
    obtain ⟨st2, hEq, hLen, hChar⟩ := classifyGo_all_dup cfg.numGroups
      (cfg.numDcGroups + 1) s.maxPasses cfg.header.numPasses secs 0
      (emptyClassify cfg s secs.length) hproc
      (by dsimp only [emptyClassify]; rw [List.length_replicate]; omega)
    have hcm : classifyMulti cfg s secs =
        {emptyClassify cfg s secs.length with
          status := st2
          numAcPasses :=
            (List.range cfg.numGroups).map (fun g =>
              countFrom ((emptyClassify cfg s secs.length).acGroupSec.getD g [])
                secs.length (s.decodedPassesPerAcGroup.getD g 0)
                (s.maxPasses - s.decodedPassesPerAcGroup.getD g 0))} := by
      unfold classifyMulti
      dsimp only
      rw [hEq]
      rfl
    rw [hcm]
    refine Eq.trans (psDcGlobal_inert cfg env secs _ _ _ _ rfl rfl
      (fun j hj => List.eq_of_mem_replicate hj)
      (by
        intro n hn
        rcases List.mem_map.1 hn with ⟨g, hg, hgn⟩
        rw [List.mem_range] at hg
        rw [show (emptyClassify cfg s secs.length).acGroupSec.getD g [] =
            List.replicate cfg.header.numPasses secs.length from
          getD_replicate_self _ _ hg] at hgn
        rw [countFrom_replicate] at hgn
        exact hgn.symm)
      hfin) ?_
    have hst2 : st2 = List.replicate secs.length SectionStatus.kDuplicate := by
      apply eq_replicate_of_getD SectionStatus.kSkipped
      · rw [hLen]
        dsimp only [emptyClassify]
        exact List.length_replicate secs.length SectionStatus.kSkipped
      · intro j hj
        rw [hChar j, if_pos (by omega)]
    unfold psMark
    dsimp only [emptyClassify]
    rw [markSectionsGo_no_clear st2 secs 0 s.processedSection secs.length
      (by
        intro k _ hk
        rcases (by omega : 0 ≤ k ∧ k < secs.length) with ⟨_, hk2⟩
        rw [hChar k, if_pos (by omega)]
        decide)]
    dsimp only
    rw [hst2]
    exact congrArg (fun z => PSRes.mk z
      (List.replicate secs.length SectionStatus.kDuplicate) none)
      (state_eta_done s secs.length hdone)

/-- Facts available after any successful `ProcessSections` call: the
resulting statuses are consistent with the classification registrations, and
the closing `MarkSections` determined the left-behind
`processed_section_`/`num_sections_done_`. -/
theorem processSections_success_facts (cfg : FrameConfig) (env : ExecEnv)
    (s : FrameState) (secs : List SectionInfo) (s1 : FrameState)
    (st1 : List SectionStatus)
    (hne : ¬ secs.length = 0)
    (hlen1 : 1 ≤ s.processedSection.length)
    (hrun : processSections cfg env s secs = ⟨s1, st1, none⟩) :
    ∃ P : List Bool,
      statOK secs P st1 ∧
      st1.length = secs.length ∧
      (s1.decodedDcGroups.all (fun b => b) = true → s1.finalizedDc = true) ∧
      s1.processedSection = (markSectionsGo st1 secs 0 P secs.length).1 ∧
      s1.numSectionsDone = (markSectionsGo st1 secs 0 P secs.length).2 ∧
      ((cfg.numGroups = 1 ∧ cfg.header.numPasses = 1) →
        secs.length = 1 ∧ (secs.getD 0 default).id = 0) := by
  unfold processSections at hrun
  rw [if_neg hne] at hrun
  dsimp only at hrun
  by_cases hs : cfg.numGroups = 1 ∧ cfg.header.numPasses = 1
  · rw [if_pos hs] at hrun
    cases he : (classifySingle cfg s secs).err with
    | some e =>
      rw [he] at hrun
      dsimp only at hrun
      simp at hrun
    | none =>
      obtain ⟨hn1, hid0, hroles, hstat, hlenst⟩ :=
        classifySingle_facts cfg s secs hlen1 he
      rw [he] at hrun
      dsimp only at hrun
      have herr2 := congrArg PSRes.err hrun
      have post := psDcGlobal_post cfg env secs _ _ _ _ hroles hstat hlenst rfl herr2
      rw [hrun] at post
      dsimp only at post
      exact ⟨(classifySingle cfg s secs).processed, post.1, post.2.1, post.2.2.1,
        post.2.2.2.1, post.2.2.2.2, fun _ => ⟨hn1, hid0⟩⟩
  · rw [if_neg hs] at hrun
    cases he : (classifyMulti cfg s secs).err with
    | some e =>
      rw [he] at hrun
      dsimp only at hrun
      simp at hrun
    | none =>
      obtain ⟨hroles, hstat, hlenst⟩ := classifyMulti_facts cfg s secs
      rw [he] at hrun
      dsimp only at hrun
      have herr2 := congrArg PSRes.err hrun
      have post := psDcGlobal_post cfg env secs _ _ _ _ hroles hstat hlenst rfl herr2
      rw [hrun] at post
      dsimp only at post
      exact ⟨(classifyMulti cfg s secs).processed, post.1, post.2.1, post.2.2.1,
        post.2.2.2.1, post.2.2.2.2, fun hs2 => absurd hs2 hs⟩

/-- C5 (amended): for every batch whose `process_sections` call succeeds with
every returned status Done or Duplicate, re-submitting the very same batch to
`process_sections` yields status Duplicate for every section and leaves the
frame state unchanged.  (Without the Done/Duplicate proviso the law fails:
`MarkSections` clears the `processed_section_` bits of Skipped and Partial
entries, so a re-submitted skipped section is reprocessed — or reported
Skipped again — rather than reported Duplicate.) -/
theorem duplicate_batch_law (cfg : FrameConfig) (env : ExecEnv)
    (s s1 : FrameState) (secs : List SectionInfo) (st1 : List SectionStatus)
    (hlen1 : 1 ≤ s.processedSection.length)
    (hrun : processSections cfg env s secs = ⟨s1, st1, none⟩)
    (hall : ∀ x ∈ st1, x = SectionStatus.kDone ∨ x = SectionStatus.kDuplicate) :
    processSections cfg env s1 secs =
      ⟨s1, List.replicate secs.length SectionStatus.kDuplicate, none⟩ := by
  by_cases hne : secs.length = 0
  · have hsecs : secs = [] := List.length_eq_zero.1 hne
    subst hsecs
    have hred : processSections cfg env s [] = (⟨s, [], none⟩ : PSRes) := rfl
    rw [hred] at hrun
    simp only [PSRes.mk.injEq] at hrun
    obtain ⟨h1, _, _⟩ := hrun
    subst h1
    rfl
  · obtain ⟨P, hstat, hlenst, hfin, hps, hnd, hsing⟩ :=
      processSections_success_facts cfg env s secs s1 st1 hne hlen1 hrun
    have hmemD : ∀ j, j < st1.length →
        st1.getD j SectionStatus.kSkipped = SectionStatus.kDone ∨
        st1.getD j SectionStatus.kSkipped = SectionStatus.kDuplicate := by
      intro j hj
      apply hall
      rw [List.getD, List.get?_eq_get hj]
      simp only [Option.getD_some]
      exact List.get_mem st1 j hj
    have hnc : markSectionsGo st1 secs 0 P secs.length = (P, secs.length) := by
      apply markSectionsGo_no_clear
      intro k _ hk
      have hk1 : k < st1.length := by
        rw [hlenst]
        omega
      rcases hmemD k hk1 with h | h <;> rw [h] <;> decide
    have hps1 : s1.processedSection = P := by
      rw [hps, hnc]
    have hnd1 : s1.numSectionsDone = secs.length := by
      rw [hnd, hnc]
    apply processSections_all_dup cfg env s1 secs hne
    · intro sec hmem
      obtain ⟨⟨j, hj⟩, hjs⟩ := List.mem_iff_get.1 hmem
      have hgd : secs.getD j default = sec := by
        rw [List.getD, List.get?_eq_get hj]
        simp only [Option.getD_some]
        exact hjs
      have hj1 : j < st1.length := by
        rw [hlenst]
        exact hj
      have h2 := hstat j (hmemD j hj1)
      rw [hgd] at h2
      rw [hps1]
      exact h2
    · exact hfin
    · exact hnd1
    · exact hsing

theorem duplicate_batch_law_witness :
    1 ≤ (initialState cfgSingle).processedSection.length ∧
    processSections cfgSingle envAllOk (initialState cfgSingle)
        [⟨0, SecOutcome.ok⟩] = ⟨stFullSingle, [SectionStatus.kDone], none⟩ ∧
    (∀ x ∈ [SectionStatus.kDone],
      x = SectionStatus.kDone ∨ x = SectionStatus.kDuplicate) ∧
    processSections cfgSingle envAllOk stFullSingle [⟨0, SecOutcome.ok⟩] =
      ⟨stFullSingle, List.replicate 1 SectionStatus.kDuplicate, none⟩ :=
  ⟨by decide, by decide, by decide,
    duplicate_batch_law cfgSingle envAllOk (initialState cfgSingle) stFullSingle
      [⟨0, SecOutcome.ok⟩] [SectionStatus.kDone] (by decide) (by decide) (by decide)⟩

end JxlDecFrame
